import Mathlib

/-!
Shallow embedding of the task-collection and watch-mode core of the
repository (packages/runner/src/utils/collect.ts, packages/runner/src/collect.ts,
packages/vitest/src/node/core.ts), together with theorems about the
properties stated in the specification.

Conventions of the embedding:
* the TypeScript code mutates task trees in place; here every function
  returns the updated tree;
* JavaScript `RegExp`/string patterns and the external `pathe.relative`
  and error-normalisation (`processError`) capabilities are passed in as
  function parameters;
* the `task.suite` parent back-references used by `getTaskFullName` are
  represented by threading the accumulated ancestor-name prefix (`pre`)
  through the recursion; the call on a `File` root uses the empty prefix,
  matching the code in collect.ts which deletes the back-reference of
  top-level tasks to the synthetic root before interpretation.
-/

namespace Vitest

/-- RunMode from packages/runner/src/types/tasks.ts: run | skip | only | todo. -/
inductive RunMode where
  | run
  | skip
  | only
  | todo
deriving DecidableEq, Repr

/-- The `type` discriminator of a Task: suite | test | custom. -/
inductive TaskType where
  | suite
  | test
  | custom
deriving DecidableEq, Repr

/-- TaskResult state: pass | fail | skip. -/
inductive ResultState where
  | pass
  | fail
  | skipped
deriving DecidableEq, Repr

/-- TaskResult: the `state` together with its `errors` (errors modelled as
normalised message strings, since `processError` is an external capability). -/
structure TaskResult where
  state : ResultState
  errors : List String
deriving DecidableEq, Repr

/-- A node of a collected task tree (Suite / Test / Custom).  Fields follow
TaskBase from packages/runner/src/types/tasks.ts: `id`, `name`, `type`,
`mode`, optional `result`, and for suites the ordered `tasks` array. -/
inductive Task where
  | mk (id : String) (name : String) (type : TaskType) (mode : RunMode)
      (result : Option TaskResult) (tasks : List Task)

def Task.id : Task → String
  | .mk i _ _ _ _ _ => i

def Task.name : Task → String
  | .mk _ n _ _ _ _ => n

def Task.type : Task → TaskType
  | .mk _ _ ty _ _ _ => ty

def Task.mode : Task → RunMode
  | .mk _ _ _ m _ _ => m

def Task.result : Task → Option TaskResult
  | .mk _ _ _ _ r _ => r

def Task.tasks : Task → List Task
  | .mk _ _ _ _ _ ts => ts

def Task.withMode : Task → RunMode → Task
  | .mk i n ty _ r ts, m => .mk i n ty m r ts

def Task.withResult : Task → Option TaskResult → Task
  | .mk i n ty m _ ts, r => .mk i n ty m r ts

def Task.withId : Task → String → Task
  | .mk _ n ty m r ts, i => .mk i n ty m r ts

def Task.withTasks : Task → List Task → Task
  | .mk i n ty m r _, ts => .mk i n ty m r ts

/- Node count of a task tree; used as a termination measure. -/
mutual
def Task.size : Task → Nat
  | .mk _ _ _ _ _ ts => 1 + Task.sizeList ts
def Task.sizeList : List Task → Nat
  | [] => 0
  | t :: ts => 1 + Task.size t + Task.sizeList ts
end

@[simp] theorem Task.size_withMode (t : Task) (m : RunMode) :
    (t.withMode m).size = t.size := by
  cases t; rfl

@[simp] theorem Task.size_withResult (t : Task) (r : Option TaskResult) :
    (t.withResult r).size = t.size := by
  cases t; rfl

theorem Task.size_pos (t : Task) : 0 < t.size := by
  cases t; simp [Task.size]

theorem Task.sizeList_tasks_lt (t : Task) : Task.sizeList t.tasks < t.size := by
  cases t; simp [Task.size, Task.tasks]

/- someTasksAreOnly from utils/collect.ts: some task in the subtree,
recursively, has `mode === 'only'`. -/
mutual
def someTasksAreOnly (suite : Task) : Bool :=
  someTasksAreOnlyList suite.tasks
termination_by suite.size
decreasing_by exact Task.sizeList_tasks_lt suite

def someTasksAreOnlyList : List Task → Bool
  | [] => false
  | t :: ts =>
    (t.mode == RunMode.only || (t.type == TaskType.suite && someTasksAreOnly t))
      || someTasksAreOnlyList ts
termination_by ts => Task.sizeList ts
decreasing_by all_goals (simp [Task.sizeList, Task.size]; try omega)
end

/- skipAllTasks from utils/collect.ts: every direct child in mode `run`
is set to `skip`; child suites that were in `run` mode are descended into. -/
def skipChildren : List Task → List Task
  | [] => []
  | Task.mk i n ty m r ts :: rest =>
    (if m == RunMode.run then
      Task.mk i n ty RunMode.skip r
        (if ty == TaskType.suite then skipChildren ts else ts)
    else Task.mk i n ty m r ts) :: skipChildren rest
termination_by ts => Task.sizeList ts
decreasing_by all_goals (simp [Task.sizeList, Task.size]; try omega)

def skipAllTasks (suite : Task) : Task :=
  suite.withTasks (skipChildren suite.tasks)

/-- The error message produced for a forbidden `.only` modifier. -/
def onlyErrorMessage : String :=
  "[Vitest] Unexpected .only modifier. Remove it or pass --allowOnly argument to bypass this error"

/-- checkAllowOnly from utils/collect.ts: when `allowOnly` is false the task
gets a synthetic failure result holding exactly the one descriptive error. -/
def checkAllowOnly (task : Task) (allowOnly : Bool) : Task :=
  if allowOnly then task
  else task.withResult (some { state := ResultState.fail, errors := [onlyErrorMessage] })

@[simp] theorem size_checkAllowOnly (t : Task) (b : Bool) :
    (checkAllowOnly t b).size = t.size := by
  unfold checkAllowOnly; split <;> simp

/-- Name-path join: `getTaskFullName` produces the ancestor names joined by
single spaces; an empty prefix stands for an absent `suite` back-reference. -/
def joinName (pre name : String) : String :=
  if pre == "" then name else pre ++ " " ++ name

/-- The `onlyMode` block of the `forEach` body of interpretTaskModes
(utils/collect.ts lines 22-37), acting on one child `t`. -/
def onlyModeStep (suiteIsOnly allowOnly : Bool) (t : Task) : Task :=
  -- `includeTask` is inlined as `suiteIsOnly || t.mode == RunMode.only`
  if t.type == TaskType.suite && ((suiteIsOnly || t.mode == RunMode.only) || someTasksAreOnly t) then
    if t.mode == RunMode.only then (checkAllowOnly t allowOnly).withMode RunMode.run else t
  else if t.mode == RunMode.run && !(suiteIsOnly || t.mode == RunMode.only) then
    t.withMode RunMode.skip
  else if t.mode == RunMode.only then
    (checkAllowOnly t allowOnly).withMode RunMode.run
  else t

/-- The name-pattern block of interpretTaskModes (utils/collect.ts lines
38-42): a test whose full name fails the pattern is demoted to skip.  The
pattern is the JS `match` against `namePattern`, passed as a predicate;
`none` covers both an absent and an empty (falsy) pattern. -/
def nameStep (namePattern : Option (String → Bool)) (pre : String) (t : Task) : Task :=
  if t.type == TaskType.test then
    match namePattern with
    | some pat => if pat (joinName pre t.name) then t else t.withMode RunMode.skip
    | none => t
  else t

/-- The two in-place updates applied to a child before the suite branch. -/
def stepBoth (namePattern : Option (String → Bool)) (onlyMode allowOnly suiteIsOnly : Bool)
    (pre : String) (t : Task) : Task :=
  nameStep namePattern pre (if onlyMode then onlyModeStep suiteIsOnly allowOnly t else t)

@[simp] theorem size_onlyModeStep (suiteIsOnly allowOnly : Bool) (t : Task) :
    (onlyModeStep suiteIsOnly allowOnly t).size = t.size := by
  unfold onlyModeStep
  split
  · split <;> simp
  · split
    · simp
    · split <;> simp

@[simp] theorem size_nameStep (np : Option (String → Bool)) (pre : String) (t : Task) :
    (nameStep np pre t).size = t.size := by
  unfold nameStep
  split
  · cases np with
    | none => rfl
    | some pat => dsimp only; split <;> simp
  · rfl

@[simp] theorem size_stepBoth (np : Option (String → Bool)) (om ao sio : Bool)
    (pre : String) (t : Task) : (stepBoth np om ao sio pre t).size = t.size := by
  unfold stepBoth
  split <;> simp

/- interpretTaskModes from utils/collect.ts (the `locationFilters`
argument is unused by the source function and omitted).  `interpretChildren`
is the `suite.tasks.forEach` loop; `processChild` is its body. -/
mutual
def interpretTaskModes (suite : Task) (namePattern : Option (String → Bool))
    (onlyMode parentIsOnly allowOnly : Bool) (pre : String) : Task :=
  match suite with
  | .mk i n ty mode result tasks =>
    let suiteIsOnly := parentIsOnly || mode == RunMode.only
    let tasks2 := interpretChildren namePattern onlyMode allowOnly suiteIsOnly pre tasks
    -- if all subtasks are skipped, mark as skip
    let mode2 :=
      if mode == RunMode.run && (!tasks2.isEmpty && tasks2.all fun i => i.mode != RunMode.run)
      then RunMode.skip else mode
    Task.mk i n ty mode2 result tasks2
termination_by 3 * suite.size
decreasing_by simp [Task.size]; omega

def interpretChildren (namePattern : Option (String → Bool))
    (onlyMode allowOnly suiteIsOnly : Bool) (pre : String) : List Task → List Task
  | [] => []
  | t :: ts =>
    processChild namePattern onlyMode allowOnly suiteIsOnly pre t ::
      interpretChildren namePattern onlyMode allowOnly suiteIsOnly pre ts
termination_by ts => 3 * Task.sizeList ts + 2
decreasing_by all_goals (simp [Task.sizeList, Task.size]; try omega)

def processChild (namePattern : Option (String → Bool))
    (onlyMode allowOnly suiteIsOnly : Bool) (pre : String) (t : Task) : Task :=
  let includeTask := suiteIsOnly || t.mode == RunMode.only
  let t2 := stepBoth namePattern onlyMode allowOnly suiteIsOnly pre t
  if t2.type == TaskType.suite then
    if t2.mode == RunMode.skip then skipAllTasks t2
    else interpretTaskModes t2 namePattern onlyMode includeTask allowOnly
      (joinName pre t2.name)
  else t2
termination_by 3 * t.size + 1
decreasing_by simp only [size_stepBoth]; omega
end

/-- generateHash from utils/collect.ts.  JavaScript `charCodeAt` yields
UTF-16 code units, so characters above U+FFFF contribute a surrogate pair. -/
def utf16Units (c : Char) : List Nat :=
  let v := c.toNat
  if v < 65536 then [v]
  else [55296 + (v - 65536) / 1024, 56320 + (v - 65536) % 1024]

/-- JavaScript ToInt32: reduce modulo 2^32 into [-2^31, 2^31). -/
def toInt32 (n : Int) : Int :=
  let m := n % 4294967296
  if m < 2147483648 then m else m - 4294967296

/-- One loop iteration of generateHash:
`hash = (hash << 5) - hash + char; hash = hash & hash`. -/
def hashStep (h : Int) (c : Nat) : Int :=
  toInt32 (toInt32 (h * 32) - h + c)

def generateHash (str : String) : String :=
  let hash : Int := 0
  if str.length == 0 then toString hash
  else toString ((str.data.flatMap utf16Units).foldl hashStep hash)

/- calculateSuiteHash from utils/collect.ts: every child receives the id
`{parent.id}_{idx}` and child suites are descended into (with their new id). -/
mutual
def calculateSuiteHash (parent : Task) : Task :=
  parent.withTasks (calcChildren parent.id 0 parent.tasks)
termination_by parent.size
decreasing_by exact Task.sizeList_tasks_lt parent

def calcChildren (pid : String) (idx : Nat) : List Task → List Task
  | [] => []
  | Task.mk _ n ty m r ts :: rest =>
    (if ty == TaskType.suite then
      calculateSuiteHash (Task.mk (pid ++ "_" ++ Nat.repr idx) n ty m r ts)
    else Task.mk (pid ++ "_" ++ Nat.repr idx) n ty m r ts) :: calcChildren pid (idx + 1) rest
termination_by ts => Task.sizeList ts
decreasing_by all_goals (simp [Task.sizeList, Task.size]; try omega)
end

@[simp] theorem Task.id_mk (i n : String) (ty : TaskType) (m : RunMode)
    (r : Option TaskResult) (ts : List Task) : (Task.mk i n ty m r ts).id = i := rfl

@[simp] theorem Task.name_mk (i n : String) (ty : TaskType) (m : RunMode)
    (r : Option TaskResult) (ts : List Task) : (Task.mk i n ty m r ts).name = n := rfl

@[simp] theorem Task.type_mk (i n : String) (ty : TaskType) (m : RunMode)
    (r : Option TaskResult) (ts : List Task) : (Task.mk i n ty m r ts).type = ty := rfl

@[simp] theorem Task.mode_mk (i n : String) (ty : TaskType) (m : RunMode)
    (r : Option TaskResult) (ts : List Task) : (Task.mk i n ty m r ts).mode = m := rfl

@[simp] theorem Task.result_mk (i n : String) (ty : TaskType) (m : RunMode)
    (r : Option TaskResult) (ts : List Task) : (Task.mk i n ty m r ts).result = r := rfl

@[simp] theorem Task.tasks_mk (i n : String) (ty : TaskType) (m : RunMode)
    (r : Option TaskResult) (ts : List Task) : (Task.mk i n ty m r ts).tasks = ts := rfl

@[simp] theorem Task.mode_withMode (t : Task) (m : RunMode) : (t.withMode m).mode = m := by
  cases t; rfl

@[simp] theorem Task.type_withMode (t : Task) (m : RunMode) :
    (t.withMode m).type = t.type := by cases t; rfl

@[simp] theorem Task.name_withMode (t : Task) (m : RunMode) :
    (t.withMode m).name = t.name := by cases t; rfl

@[simp] theorem Task.result_withMode (t : Task) (m : RunMode) :
    (t.withMode m).result = t.result := by cases t; rfl

@[simp] theorem Task.tasks_withMode (t : Task) (m : RunMode) :
    (t.withMode m).tasks = t.tasks := by cases t; rfl

@[simp] theorem Task.mode_withResult (t : Task) (r : Option TaskResult) :
    (t.withResult r).mode = t.mode := by cases t; rfl

@[simp] theorem Task.type_withResult (t : Task) (r : Option TaskResult) :
    (t.withResult r).type = t.type := by cases t; rfl

@[simp] theorem Task.name_withResult (t : Task) (r : Option TaskResult) :
    (t.withResult r).name = t.name := by cases t; rfl

@[simp] theorem Task.result_withResult (t : Task) (r : Option TaskResult) :
    (t.withResult r).result = r := by cases t; rfl

@[simp] theorem Task.tasks_withResult (t : Task) (r : Option TaskResult) :
    (t.withResult r).tasks = t.tasks := by cases t; rfl

@[simp] theorem Task.tasks_withTasks (t : Task) (ts : List Task) :
    (t.withTasks ts).tasks = ts := by cases t; rfl

@[simp] theorem Task.mode_withTasks (t : Task) (ts : List Task) :
    (t.withTasks ts).mode = t.mode := by cases t; rfl

@[simp] theorem Task.type_withTasks (t : Task) (ts : List Task) :
    (t.withTasks ts).type = t.type := by cases t; rfl

@[simp] theorem Task.name_withTasks (t : Task) (ts : List Task) :
    (t.withTasks ts).name = t.name := by cases t; rfl

@[simp] theorem Task.result_withTasks (t : Task) (ts : List Task) :
    (t.withTasks ts).result = t.result := by cases t; rfl

@[simp] theorem type_checkAllowOnly (t : Task) (b : Bool) :
    (checkAllowOnly t b).type = t.type := by
  unfold checkAllowOnly; split <;> simp

@[simp] theorem name_checkAllowOnly (t : Task) (b : Bool) :
    (checkAllowOnly t b).name = t.name := by
  unfold checkAllowOnly; split <;> simp

@[simp] theorem mode_checkAllowOnly (t : Task) (b : Bool) :
    (checkAllowOnly t b).mode = t.mode := by
  unfold checkAllowOnly; split <;> simp

@[simp] theorem tasks_checkAllowOnly (t : Task) (b : Bool) :
    (checkAllowOnly t b).tasks = t.tasks := by
  unfold checkAllowOnly; split <;> simp

theorem result_checkAllowOnly (t : Task) (b : Bool) :
    (checkAllowOnly t b).result =
      if b then t.result
      else some { state := ResultState.fail, errors := [onlyErrorMessage] } := by
  unfold checkAllowOnly; split <;> simp_all

@[simp] theorem type_onlyModeStep (sio ao : Bool) (t : Task) :
    (onlyModeStep sio ao t).type = t.type := by
  unfold onlyModeStep
  split
  · split <;> simp
  · split
    · simp
    · split <;> simp

@[simp] theorem name_onlyModeStep (sio ao : Bool) (t : Task) :
    (onlyModeStep sio ao t).name = t.name := by
  unfold onlyModeStep
  split
  · split <;> simp
  · split
    · simp
    · split <;> simp

@[simp] theorem tasks_onlyModeStep (sio ao : Bool) (t : Task) :
    (onlyModeStep sio ao t).tasks = t.tasks := by
  unfold onlyModeStep
  split
  · split <;> simp
  · split
    · simp
    · split <;> simp

@[simp] theorem type_nameStep (np : Option (String → Bool)) (pre : String) (t : Task) :
    (nameStep np pre t).type = t.type := by
  unfold nameStep
  split
  · cases np with
    | none => rfl
    | some pat => dsimp only; split <;> simp
  · rfl

@[simp] theorem name_nameStep (np : Option (String → Bool)) (pre : String) (t : Task) :
    (nameStep np pre t).name = t.name := by
  unfold nameStep
  split
  · cases np with
    | none => rfl
    | some pat => dsimp only; split <;> simp
  · rfl

@[simp] theorem tasks_nameStep (np : Option (String → Bool)) (pre : String) (t : Task) :
    (nameStep np pre t).tasks = t.tasks := by
  unfold nameStep
  split
  · cases np with
    | none => rfl
    | some pat => dsimp only; split <;> simp
  · rfl

@[simp] theorem type_stepBoth (np : Option (String → Bool)) (om ao sio : Bool)
    (pre : String) (t : Task) : (stepBoth np om ao sio pre t).type = t.type := by
  unfold stepBoth; split <;> simp

@[simp] theorem name_stepBoth (np : Option (String → Bool)) (om ao sio : Bool)
    (pre : String) (t : Task) : (stepBoth np om ao sio pre t).name = t.name := by
  unfold stepBoth; split <;> simp

@[simp] theorem tasks_stepBoth (np : Option (String → Bool)) (om ao sio : Bool)
    (pre : String) (t : Task) : (stepBoth np om ao sio pre t).tasks = t.tasks := by
  unfold stepBoth; split <;> simp

theorem result_interpretTaskModes (s : Task) (np : Option (String → Bool))
    (om pio ao : Bool) (pre : String) :
    (interpretTaskModes s np om pio ao pre).result = s.result := by
  cases s; rw [interpretTaskModes]; simp

theorem type_interpretTaskModes (s : Task) (np : Option (String → Bool))
    (om pio ao : Bool) (pre : String) :
    (interpretTaskModes s np om pio ao pre).type = s.type := by
  cases s; rw [interpretTaskModes]; simp

/-- Lookup of the node at a path of child indices (root is the empty path). -/
def getPath : Task → List Nat → Option Task
  | t, [] => some t
  | t, i :: p => (t.tasks[i]?).bind fun c => getPath c p

/- Well-formedness matching the TypeScript task types: only Suites carry
child tasks (Tests and Customs have an empty `tasks` array). -/
mutual
def Task.wf (t : Task) : Bool :=
  (t.type == TaskType.suite || t.tasks.isEmpty) && Task.wfList t.tasks
termination_by t.size
decreasing_by exact Task.sizeList_tasks_lt t

def Task.wfList : List Task → Bool
  | [] => true
  | t :: ts => Task.wf t && Task.wfList ts
termination_by ts => Task.sizeList ts
decreasing_by all_goals (simp [Task.sizeList]; try omega)
end

/-- The iteration context in which interpretTaskModes processes the node at
a given non-empty path: `some (t, suiteIsOnly, pre)` when the recursion of
interpretTaskModes reaches the node `t` (as it is at the start of its own
`forEach` iteration), with the `suiteIsOnly` flag and ancestor-name prefix
in force at that level.  Descending continues only into children whose
post-update value is a non-skip suite, exactly as in the source. -/
def processedInfo (np : Option (String → Bool)) (om ao : Bool) :
    Task → Bool → String → List Nat → Option (Task × Bool × String)
  | _, _, _, [] => none
  | s, pio, pre, [i] =>
    (s.tasks[i]?).map fun t => (t, pio || s.mode == RunMode.only, pre)
  | s, pio, pre, i :: j :: p =>
    match s.tasks[i]? with
    | none => none
    | some t =>
      let t2 := stepBoth np om ao (pio || s.mode == RunMode.only) pre t
      if t2.type == TaskType.suite && t2.mode != RunMode.skip then
        processedInfo np om ao t2 ((pio || s.mode == RunMode.only) || t.mode == RunMode.only)
          (joinName pre t2.name) (j :: p)
      else none

theorem interpretChildren_getElem (np : Option (String → Bool)) (om ao sio : Bool)
    (pre : String) (ts : List Task) (i : Nat) :
    (interpretChildren np om ao sio pre ts)[i]? =
      (ts[i]?).map (processChild np om ao sio pre) := by
  induction ts generalizing i with
  | nil => rw [interpretChildren]; simp
  | cons t ts ih =>
    rw [interpretChildren]
    cases i with
    | zero => simp
    | succ j => simpa using ih j

theorem getPath_interpret (np : Option (String → Bool)) (om ao : Bool) :
    ∀ (p : List Nat) (s : Task) (pio : Bool) (pre : String) (u : Task)
      (sio : Bool) (pre2 : String),
    processedInfo np om ao s pio pre p = some (u, sio, pre2) →
    getPath (interpretTaskModes s np om pio ao pre) p =
      some (processChild np om ao sio pre2 u) := by
  intro p
  induction p with
  | nil =>
    intro s pio pre u sio pre2 h
    rw [processedInfo] at h
    exact absurd h (by simp)
  | cons i p ih =>
    intro s pio pre u sio pre2 h
    cases s with
    | mk sid sn sty sm sr sts =>
      cases p with
      | nil =>
        rw [processedInfo] at h
        simp [Task.tasks, Task.mode] at h
        obtain ⟨t, ht, h1, h2, h3⟩ := h
        rw [interpretTaskModes, getPath]
        simp only [Task.tasks_mk]
        rw [interpretChildren_getElem, ht]
        simp [getPath, h1, h2, h3]
      | cons j q =>
        rw [processedInfo] at h
        simp only [Task.tasks_mk, Task.mode_mk] at h
        cases hts : sts[i]? with
        | none => rw [hts] at h; simp at h
        | some t =>
          rw [hts] at h
          simp only [] at h
          by_cases hcond :
              ((stepBoth np om ao (pio || sm == RunMode.only) pre t).type == TaskType.suite &&
               (stepBoth np om ao (pio || sm == RunMode.only) pre t).mode != RunMode.skip) = true
          · rw [if_pos hcond] at h
            have hrec := ih _ _ _ _ _ _ h
            simp only [Bool.and_eq_true, bne_iff_ne, ne_eq, beq_iff_eq] at hcond
            have hpc : processChild np om ao (pio || sm == RunMode.only) pre t
                = interpretTaskModes (stepBoth np om ao (pio || sm == RunMode.only) pre t) np om
                    ((pio || sm == RunMode.only) || t.mode == RunMode.only) ao
                    (joinName pre (stepBoth np om ao (pio || sm == RunMode.only) pre t).name) := by
              simp only [processChild]
              rw [if_pos (by simp [hcond.1]), if_neg (by simp [hcond.2])]
            rw [interpretTaskModes, getPath]
            simp only [Task.tasks_mk]
            rw [interpretChildren_getElem, hts]
            simp only [Option.map_some', Option.some_bind]
            rw [hpc]
            exact hrec
          · rw [if_neg hcond] at h
            simp at h

@[simp] theorem getPath_nil (t : Task) : getPath t [] = some t := rfl

theorem getPath_cons (t : Task) (i : Nat) (p : List Nat) :
    getPath t (i :: p) = (t.tasks[i]?).bind fun c => getPath c p := by
  rw [getPath]

theorem getPath_cons_some {t : Task} {i : Nat} {p : List Nat} {u : Task}
    (h : getPath t (i :: p) = some u) :
    ∃ c, t.tasks[i]? = some c ∧ getPath c p = some u := by
  rw [getPath_cons] at h
  cases hc : t.tasks[i]? with
  | none => rw [hc] at h; simp at h
  | some c => rw [hc] at h; exact ⟨c, rfl, h⟩

theorem getPath_congr_tasks {t t' : Task} (h : t.tasks = t'.tasks) (i : Nat) (p : List Nat) :
    getPath t (i :: p) = getPath t' (i :: p) := by
  rw [getPath_cons, getPath_cons, h]

theorem wfList_getElem {ts : List Task} {i : Nat} {c : Task}
    (hwf : Task.wfList ts = true) (hc : ts[i]? = some c) : Task.wf c = true := by
  induction ts generalizing i with
  | nil => simp at hc
  | cons t ts ih =>
    rw [Task.wfList] at hwf
    simp only [Bool.and_eq_true] at hwf
    cases i with
    | zero => simp at hc; subst hc; exact hwf.1
    | succ j => simp at hc; exact ih hwf.2 hc

theorem wf_unfold (t : Task) :
    Task.wf t = ((t.type == TaskType.suite || t.tasks.isEmpty) && Task.wfList t.tasks) := by
  rw [Task.wf]

theorem wf_child {t : Task} {i : Nat} {c : Task}
    (hwf : Task.wf t = true) (hc : t.tasks[i]? = some c) : Task.wf c = true := by
  rw [wf_unfold] at hwf
  simp only [Bool.and_eq_true] at hwf
  exact wfList_getElem hwf.2 hc

theorem type_suite_of_wf_child {t : Task} {i : Nat} {c : Task}
    (hwf : Task.wf t = true) (hc : t.tasks[i]? = some c) : t.type = TaskType.suite := by
  rw [wf_unfold] at hwf
  simp only [Bool.and_eq_true, Bool.or_eq_true, beq_iff_eq] at hwf
  rcases hwf.1 with h | h
  · exact h
  · exfalso
    have : t.tasks = [] := by simpa using h
    rw [this] at hc
    simp at hc

theorem wf_of_parts {t t' : Task} (hty : t'.type = t.type) (hts : t'.tasks = t.tasks) :
    Task.wf t' = Task.wf t := by
  rw [wf_unfold, wf_unfold, hty, hts]

@[simp] theorem nameStep_none (pre : String) (t : Task) : nameStep none pre t = t := by
  unfold nameStep; split <;> rfl

theorem nameStep_not_test {np : Option (String → Bool)} {pre : String} {t : Task}
    (h : t.type ≠ TaskType.test) : nameStep np pre t = t := by
  unfold nameStep
  rw [if_neg (by simp [h])]

theorem mode_nameStep_skip {np : Option (String → Bool)} {pre : String} {t : Task}
    (h : t.mode = RunMode.skip) : (nameStep np pre t).mode = RunMode.skip := by
  unfold nameStep
  split
  · cases np with
    | none => exact h
    | some pat => dsimp only; split <;> simp [h]
  · exact h

@[simp] theorem mode_skipAllTasks (t : Task) : (skipAllTasks t).mode = t.mode := by
  cases t; simp [skipAllTasks]

theorem onlyModeStep_of_only {u : Task} (sio ao : Bool) (h : u.mode = RunMode.only) :
    onlyModeStep sio ao u = (checkAllowOnly u ao).withMode RunMode.run := by
  unfold onlyModeStep
  by_cases hty : (u.type == TaskType.suite) = true
  · rw [if_pos (by simp [hty, h])]
    rw [if_pos (by simp [h])]
  · rw [if_neg (by simp_all)]
    rw [if_neg (by simp [h])]
    rw [if_pos (by simp [h])]

theorem onlyModeStep_demote {u : Task} (ao : Bool) (hmode : u.mode = RunMode.run)
    (hso : someTasksAreOnly u = false) :
    onlyModeStep false ao u = u.withMode RunMode.skip := by
  unfold onlyModeStep
  rw [if_neg (by simp [hmode, hso])]
  rw [if_pos (by simp [hmode])]

theorem onlyModeStep_protected {u : Task} (ao : Bool) (hmode : u.mode = RunMode.run)
    (hty : u.type = TaskType.suite) (hso : someTasksAreOnly u = true) :
    onlyModeStep false ao u = u := by
  unfold onlyModeStep
  rw [if_pos (by simp [hty, hso])]
  rw [if_neg (by simp [hmode])]

theorem processChild_not_suite {np : Option (String → Bool)} {om ao sio : Bool}
    {pre : String} {u : Task}
    (h : u.type ≠ TaskType.suite) :
    processChild np om ao sio pre u = stepBoth np om ao sio pre u := by
  simp only [processChild]
  rw [if_neg (by simp [h])]

theorem processChild_skip_suite {np : Option (String → Bool)} {om ao sio : Bool}
    {pre : String} {u : Task}
    (hty : u.type = TaskType.suite)
    (hm : (stepBoth np om ao sio pre u).mode = RunMode.skip) :
    processChild np om ao sio pre u = skipAllTasks (stepBoth np om ao sio pre u) := by
  simp only [processChild]
  rw [if_pos (by simp [hty]), if_pos (by simp [hm])]

theorem processChild_recurse {np : Option (String → Bool)} {om ao sio : Bool}
    {pre : String} {u : Task}
    (hty : u.type = TaskType.suite)
    (hm : (stepBoth np om ao sio pre u).mode ≠ RunMode.skip) :
    processChild np om ao sio pre u =
      interpretTaskModes (stepBoth np om ao sio pre u) np om
        (sio || u.mode == RunMode.only) ao
        (joinName pre (stepBoth np om ao sio pre u).name) := by
  simp only [processChild]
  rw [if_pos (by simp [hty]), if_neg (by simp [hm])]

/-- The elementwise transformation performed by skipChildren. -/
def skipOne (t : Task) : Task :=
  if t.mode == RunMode.run then
    Task.mk t.id t.name t.type RunMode.skip t.result
      (if t.type == TaskType.suite then skipChildren t.tasks else t.tasks)
  else t

theorem skipChildren_eq_map (ts : List Task) : ts.map skipOne = skipChildren ts := by
  induction ts with
  | nil => rw [skipChildren]; rfl
  | cons t ts ih =>
    cases t with
    | mk i n ty m r cts =>
      rw [skipChildren, List.map_cons, ih]
      simp only [skipOne, Task.id_mk, Task.name_mk, Task.type_mk, Task.mode_mk,
        Task.result_mk, Task.tasks_mk]

theorem skipChildren_getElem (ts : List Task) (i : Nat) :
    (skipChildren ts)[i]? = (ts[i]?).map skipOne := by
  rw [← skipChildren_eq_map, List.getElem?_map]

@[simp] theorem tasks_skipAllTasks (t : Task) :
    (skipAllTasks t).tasks = skipChildren t.tasks := by
  cases t; simp [skipAllTasks]

theorem mode_skipOne_run {t : Task} (h : t.mode = RunMode.run) :
    (skipOne t).mode = RunMode.skip := by
  unfold skipOne
  rw [if_pos (by simp [h])]
  simp

theorem tasks_skipOne_run_suite {t : Task} (hm : t.mode = RunMode.run)
    (hty : t.type = TaskType.suite) : (skipOne t).tasks = skipChildren t.tasks := by
  unfold skipOne
  rw [if_pos (by simp [hm]), if_pos (by simp [hty])]
  simp

theorem skipAllTasks_skips :
    ∀ (p : List Nat) (t : Task), p ≠ [] → Task.wf t = true →
    (∀ k, k < p.length → (getPath t (p.take (k + 1))).map Task.mode = some RunMode.run) →
    (getPath (skipAllTasks t) p).map Task.mode = some RunMode.skip := by
  intro p
  induction p with
  | nil => intro t h; exact absurd rfl h
  | cons i rest ih =>
    intro t _ hwf hrun
    have h0 := hrun 0 (by simp)
    simp only [List.take_succ_cons, List.take_zero] at h0
    rw [getPath_cons] at h0
    cases hc : t.tasks[i]? with
    | none => rw [hc] at h0; simp at h0
    | some c =>
      rw [hc] at h0
      simp only [Option.some_bind, getPath_nil, Option.map_some'] at h0
      have hcm : c.mode = RunMode.run := by simpa using h0
      rw [getPath_cons, tasks_skipAllTasks, skipChildren_getElem, hc]
      simp only [Option.map_some', Option.some_bind]
      cases rest with
      | nil => simp [mode_skipOne_run hcm]
      | cons j rest2 =>
        have h1 := hrun 1 (by simp)
        simp only [List.take_succ_cons, List.take_zero] at h1
        rw [getPath_cons] at h1
        rw [hc] at h1
        simp only [Option.some_bind] at h1
        rw [getPath_cons] at h1
        cases hd : c.tasks[j]? with
        | none => rw [hd] at h1; simp at h1
        | some d =>
          have hcty : c.type = TaskType.suite := type_suite_of_wf_child (wf_child hwf hc) hd
          have hwfc : Task.wf c = true := wf_child hwf hc
          have hskip1 : getPath (skipOne c) (j :: rest2) = getPath (skipAllTasks c) (j :: rest2) := by
            apply getPath_congr_tasks
            rw [tasks_skipOne_run_suite hcm hcty, tasks_skipAllTasks]
          rw [hskip1]
          apply ih c (by simp) hwfc
          intro k hk
          have h2 := hrun (k + 1) (by simpa using hk)
          simp only [List.take_succ_cons] at h2
          rw [getPath_cons, hc] at h2
          simpa using h2

theorem stepBoth_true (np : Option (String → Bool)) (ao sio : Bool) (pre : String) (t : Task) :
    stepBoth np true ao sio pre t = nameStep np pre (onlyModeStep sio ao t) := by
  simp [stepBoth]

theorem stepBoth_false (np : Option (String → Bool)) (ao sio : Bool) (pre : String) (t : Task) :
    stepBoth np false ao sio pre t = nameStep np pre t := by
  simp [stepBoth]

/-- C1 as corrected: with `onlyMode = true` (and `parentIsOnly = false`, as in
the call from collectTests), every task that was in `run` mode, whose
ancestors up to the root are all in `run` mode, and that is not a Suite
containing an `only` descendant, has mode `skip` after interpretation. -/
theorem claimC1 :
    ∀ (p : List Nat) (s : Task) (np : Option (String → Bool)) (ao : Bool)
      (pre : String) (u : Task),
    Task.wf s = true →
    p ≠ [] →
    getPath s p = some u →
    u.mode = RunMode.run →
    someTasksAreOnly u = false →
    (∀ k, k < p.length → (getPath s (p.take k)).map Task.mode = some RunMode.run) →
    (getPath (interpretTaskModes s np true false ao pre) p).map Task.mode
      = some RunMode.skip := by
  intro p
  induction p with
  | nil => intro s np ao pre u hwf h; exact absurd rfl h
  | cons i rest ih =>
    intro s np ao pre u hwf _ hget hum hus hanc
    have hroot := hanc 0 (by simp)
    simp only [List.take_zero, getPath_nil, Option.map_some', Option.some.injEq] at hroot
    obtain ⟨c, hc, hcrest⟩ := getPath_cons_some hget
    cases s with
    | mk sid sn sty sm sr sts =>
      simp only [Task.mode_mk] at hroot
      subst hroot
      simp only [Task.tasks_mk] at hc
      rw [interpretTaskModes, getPath_cons]
      simp only [Task.tasks_mk]
      rw [interpretChildren_getElem, hc]
      simp only [Option.map_some', Option.some_bind]
      have e1 : (false || (RunMode.run == RunMode.only)) = false := rfl
      rw [e1]
      cases rest with
      | nil =>
        -- the node at the path is the child c itself
        have hcu : c = u := by simpa using hcrest
        subst hcu
        have hsb : (stepBoth np true ao false pre c).mode = RunMode.skip := by
          rw [stepBoth_true, onlyModeStep_demote ao hum hus]
          exact mode_nameStep_skip (by simp)
        by_cases hty : c.type = TaskType.suite
        · rw [processChild_skip_suite hty hsb]
          simp [hsb]
        · rw [processChild_not_suite hty]
          simp [hsb]
      | cons j rest2 =>
        have h1 := hanc 1 (by simp)
        simp only [List.take_succ_cons, List.take_zero] at h1
        rw [getPath_cons] at h1
        simp only [Task.tasks_mk] at h1
        rw [hc] at h1
        simp only [Option.some_bind, getPath_nil, Option.map_some', Option.some.injEq] at h1
        have hcm : c.mode = RunMode.run := h1
        obtain ⟨d, hd, _⟩ := getPath_cons_some hcrest
        have hwfc : Task.wf c = true := wf_child (by simpa using hwf) hc
        have hcty : c.type = TaskType.suite := type_suite_of_wf_child hwfc hd
        by_cases hso : someTasksAreOnly c = true
        · have hsb : stepBoth np true ao false pre c = c := by
            rw [stepBoth_true, onlyModeStep_protected ao hcm hcty hso,
              nameStep_not_test (by simp [hcty])]
          rw [processChild_recurse hcty (by rw [hsb]; simp [hcm])]
          rw [hsb]
          have e2 : (false || (c.mode == RunMode.only)) = false := by simp [hcm]
          rw [e2]
          apply ih c np ao (joinName pre c.name) u hwfc (by simp) hcrest hum hus
          intro k hk
          cases k with
          | zero => simp [hcm]
          | succ k2 =>
            have h3 := hanc (k2 + 2) (by simpa using hk)
            simp only [List.take_succ_cons] at h3
            rw [getPath_cons] at h3
            simp only [Task.tasks_mk] at h3
            rw [hc] at h3
            simpa using h3
        · have hso2 : someTasksAreOnly c = false := by simpa using hso
          have hsb : stepBoth np true ao false pre c
              = nameStep np pre (c.withMode RunMode.skip) := by
            rw [stepBoth_true, onlyModeStep_demote ao hcm hso2]
          have hsbm : (stepBoth np true ao false pre c).mode = RunMode.skip := by
            rw [hsb]; exact mode_nameStep_skip (by simp)
          rw [processChild_skip_suite hcty hsbm]
          have htasks : (stepBoth np true ao false pre c).tasks = c.tasks := by simp
          have hwf2 : Task.wf (stepBoth np true ao false pre c) = true := by
            rw [wf_of_parts (by simp) htasks]; exact hwfc
          apply skipAllTasks_skips (j :: rest2) _ (by simp) hwf2
          intro k hk
          have hpath : getPath (stepBoth np true ao false pre c) ((j :: rest2).take (k + 1))
              = getPath c ((j :: rest2).take (k + 1)) := by
            simp only [List.take_succ_cons]
            exact getPath_congr_tasks htasks j (rest2.take k)
          rw [hpath]
          rcases Nat.lt_or_ge (k + 1) (j :: rest2).length with hlt | hge
          · have h3 := hanc (k + 2) (by simpa using hlt)
            simp only [List.take_succ_cons] at h3
            rw [getPath_cons] at h3
            simp only [Task.tasks_mk] at h3
            rw [hc] at h3
            simpa using h3
          · have heq : (k + 1) = (j :: rest2).length := le_antisymm (by omega) hge
            rw [heq, List.take_length]
            rw [hcrest]
            simp [hum]

/-- Helper for building concrete suites in examples. -/
def mkSuite (name : String) (mode : RunMode) (ts : List Task) : Task :=
  Task.mk "" name TaskType.suite mode none ts

/-- Helper for building concrete tests in examples. -/
def mkTest (name : String) (mode : RunMode) : Task :=
  Task.mk "" name TaskType.test mode none []

/-- Concrete file tree for the C1 counterexample: a `run` test shielded from
skipAllTasks by two nested `skip` suites, next to an `only` test. -/
def c1Tree : Task :=
  mkSuite "F" RunMode.run
    [mkSuite "S" RunMode.skip [mkSuite "T" RunMode.skip [mkTest "c" RunMode.run]],
     mkTest "b" RunMode.only]

/-- C1 counterexample: in `c1Tree` some task is `only` (so `onlyMode` is
true), the test `c` at path [0,0,0] was in `run` mode, is not `only`, and its
ancestors are `skip` suites (so no ancestor chain under `only`), yet after
interpretTaskModes it still has mode `run`, not `skip` as the claim states. -/
theorem claimC1_counterexample :
    someTasksAreOnly c1Tree = true
  ∧ (getPath c1Tree [0, 0, 0]).map (fun t => (t.mode, t.type))
      = some (RunMode.run, TaskType.test)
  ∧ (getPath c1Tree [0]).map Task.mode = some RunMode.skip
  ∧ (getPath c1Tree [0, 0]).map Task.mode = some RunMode.skip
  ∧ (getPath (interpretTaskModes c1Tree none true false true "") [0, 0, 0]).map Task.mode
      = some RunMode.run := by
  refine ⟨?_, ?_, ?_, ?_, ?_⟩ <;>
    simp [interpretTaskModes, interpretChildren, processChild, stepBoth, onlyModeStep,
      nameStep, checkAllowOnly, skipAllTasks, skipChildren, someTasksAreOnly,
      someTasksAreOnlyList, joinName, getPath, Task.withMode, Task.withResult, Task.withTasks, c1Tree, mkSuite, mkTest]

/-- Witness tree for the amended C1: a `run` test inside a `run` suite, next
to an `only` test. -/
def c1WitnessTree : Task :=
  mkSuite "F" RunMode.run
    [mkSuite "A" RunMode.run [mkTest "c" RunMode.run], mkTest "b" RunMode.only]

theorem claimC1_witness :
    (getPath (interpretTaskModes c1WitnessTree none true false true "") [0, 0]).map Task.mode
      = some RunMode.skip := by
  apply claimC1 [0, 0] c1WitnessTree none true "" (mkTest "c" RunMode.run)
  · simp [Task.wf, Task.wfList, c1WitnessTree, mkSuite, mkTest]
  · simp
  · simp [getPath, c1WitnessTree, mkSuite, mkTest]
  · rfl
  · simp [someTasksAreOnly, someTasksAreOnlyList, mkTest]
  · intro k hk
    simp only [List.length_cons, List.length_nil] at hk
    interval_cases k <;>
      simp [getPath, c1WitnessTree, mkSuite, mkTest]

/-- Concrete file tree for C5/C7-style name filtering: suite `A` containing a
run-mode test `B`. -/
def c5Tree : Task :=
  mkSuite "F" RunMode.run [mkSuite "A" RunMode.run [mkTest "B" RunMode.run]]

theorem mode_stepBoth_test_nonmatch {pat : String → Bool} {om ao sio : Bool} {pre : String}
    {u : Task} (hty : u.type = TaskType.test) (hpat : pat (joinName pre u.name) = false) :
    (stepBoth (some pat) om ao sio pre u).mode = RunMode.skip := by
  unfold stepBoth
  set t1 := if om then onlyModeStep sio ao u else u with ht1
  have h1ty : t1.type = TaskType.test := by rw [ht1]; split <;> simp [hty]
  have h1n : t1.name = u.name := by rw [ht1]; split <;> simp
  unfold nameStep
  rw [if_pos (by simp [h1ty])]
  dsimp only
  rw [h1n, hpat]
  simp

/-- C5 (confirmed): every Test that interpretTaskModes processes whose
fully-qualified name does not match the supplied pattern ends with mode
`skip`, regardless of `onlyMode`; and on the suite `A` / test `B` pair the
pattern matching `A B` leaves `B` in `run` while the one matching only `A C`
demotes `B` to `skip`. -/
theorem claimC5 :
    (∀ (s : Task) (pat : String → Bool) (om pio ao sio : Bool) (pre pre2 : String)
       (p : List Nat) (u : Task),
       processedInfo (some pat) om ao s pio pre p = some (u, sio, pre2) →
       u.type = TaskType.test →
       pat (joinName pre2 u.name) = false →
       (getPath (interpretTaskModes s (some pat) om pio ao pre) p).map Task.mode
         = some RunMode.skip)
  ∧ (getPath (interpretTaskModes c5Tree (some fun s => s == "A B") false false true "")
        [0, 0]).map Task.mode = some RunMode.run
  ∧ (getPath (interpretTaskModes c5Tree (some fun s => s == "A C") false false true "")
        [0, 0]).map Task.mode = some RunMode.skip := by
  refine ⟨?_, ?_, ?_⟩
  · intro s pat om pio ao sio pre pre2 p u h hty hpat
    rw [getPath_interpret (some pat) om ao p s pio pre u sio pre2 h]
    rw [processChild_not_suite (by simp [hty])]
    simp [mode_stepBoth_test_nonmatch hty hpat]
  · simp [interpretTaskModes, interpretChildren, processChild, stepBoth, onlyModeStep,
      nameStep, checkAllowOnly, skipAllTasks, skipChildren, someTasksAreOnly,
      someTasksAreOnlyList, joinName, getPath, Task.withMode, Task.withResult, Task.withTasks, c5Tree, mkSuite, mkTest]
  · simp [interpretTaskModes, interpretChildren, processChild, stepBoth, onlyModeStep,
      nameStep, checkAllowOnly, skipAllTasks, skipChildren, someTasksAreOnly,
      someTasksAreOnlyList, joinName, getPath, Task.withMode, Task.withResult, Task.withTasks, c5Tree, mkSuite, mkTest]

theorem claimC5_witness :
    (getPath (interpretTaskModes c5Tree (some fun s => s == "A C") false false true "")
      [0, 0]).map Task.mode = some RunMode.skip := by
  apply claimC5.1 c5Tree (fun s => s == "A C") false false true false "" "A" [0, 0]
    (mkTest "B" RunMode.run)
  · simp [processedInfo, stepBoth, nameStep, onlyModeStep, joinName, c5Tree, mkSuite, mkTest]
  · rfl
  · decide

/-- C10 as corrected: for every only-mode Test that interpretTaskModes
actually processes (its ancestors are descended into, i.e. no ancestor suite
is, or is demoted to, `skip`), with `onlyMode = true`, `allowOnly = true` and
a name pattern its full name does not match, the test ends with mode `skip`:
the name check runs after only-promotion in the same iteration and overrides
it.  An `only` test inside a `skip` suite is not processed and keeps `only`. -/
theorem claimC10 :
    ∀ (s : Task) (pat : String → Bool) (pio sio : Bool) (pre pre2 : String)
      (p : List Nat) (u : Task),
    processedInfo (some pat) true true s pio pre p = some (u, sio, pre2) →
    u.mode = RunMode.only →
    u.type = TaskType.test →
    pat (joinName pre2 u.name) = false →
    (getPath (interpretTaskModes s (some pat) true pio true pre) p).map Task.mode
      = some RunMode.skip := by
  intro s pat pio sio pre pre2 p u h _ hty hpat
  rw [getPath_interpret _ _ _ p s pio pre u sio pre2 h]
  rw [processChild_not_suite (by simp [hty])]
  simp [mode_stepBoth_test_nonmatch hty hpat]

/-- Concrete tree for the C10 counterexample: an `only` test inside a `skip`
suite. -/
def c10Tree : Task :=
  mkSuite "F" RunMode.run [mkSuite "S" RunMode.skip [mkTest "x" RunMode.only]]

/-- C10 counterexample: in `c10Tree` the test at [0,0] has mode `only` and a
never-matching pattern is supplied with `onlyMode = true` and
`allowOnly = true`, yet after interpretation its mode is `only`, not `skip`:
its parent suite is `skip`, so skipAllTasks leaves the `only` test untouched
and the name check never runs on it. -/
theorem claimC10_counterexample :
    someTasksAreOnly c10Tree = true
  ∧ (getPath c10Tree [0, 0]).map (fun t => (t.mode, t.type))
      = some (RunMode.only, TaskType.test)
  ∧ (fun (_ : String) => false) (joinName "S" "x") = false
  ∧ (getPath (interpretTaskModes c10Tree (some fun _ => false) true false true "")
      [0, 0]).map Task.mode = some RunMode.only := by
  refine ⟨?_, ?_, rfl, ?_⟩ <;>
    simp [interpretTaskModes, interpretChildren, processChild, stepBoth, onlyModeStep,
      nameStep, checkAllowOnly, skipAllTasks, skipChildren, someTasksAreOnly,
      someTasksAreOnlyList, joinName, getPath, Task.withMode, Task.withResult, Task.withTasks, c10Tree, mkSuite, mkTest]

/-- Witness tree for the amended C10: an `only` test at top level. -/
def c10WitnessTree : Task :=
  mkSuite "F" RunMode.run [mkTest "x" RunMode.only]

theorem claimC10_witness :
    (getPath (interpretTaskModes c10WitnessTree (some fun _ => false) true false true "")
      [0]).map Task.mode = some RunMode.skip := by
  apply claimC10 c10WitnessTree (fun _ => false) false false "" "" [0]
    (mkTest "x" RunMode.only) rfl rfl rfl rfl

/-- C4 as corrected: for every task with mode `only` that interpretTaskModes
processes with `onlyMode = true` and no name pattern: no exception is thrown;
with `allowOnly = false` the task's result is set to a `fail` result holding
exactly the one descriptive error, and with `allowOnly = true` its result is
left unchanged (no failure attached).  Its mode is promoted to `run`; a Test
keeps `run`, while a promoted Suite may afterwards end `skip` through the
all-children-skipped rule. -/
theorem claimC4 :
    ∀ (s : Task) (pio ao sio : Bool) (pre pre2 : String) (p : List Nat) (u : Task),
    processedInfo none true ao s pio pre p = some (u, sio, pre2) →
    u.mode = RunMode.only →
    ((getPath (interpretTaskModes s none true pio ao pre) p).map Task.result
       = some (if ao then u.result
               else some { state := ResultState.fail, errors := [onlyErrorMessage] }))
    ∧ (u.type = TaskType.test →
       (getPath (interpretTaskModes s none true pio ao pre) p).map Task.mode
         = some RunMode.run) := by
  intro s pio ao sio pre pre2 p u h hm
  rw [getPath_interpret none true ao p s pio pre u sio pre2 h]
  have hsb : stepBoth none true ao sio pre2 u = (checkAllowOnly u ao).withMode RunMode.run := by
    rw [stepBoth_true, onlyModeStep_of_only sio ao hm, nameStep_none]
  constructor
  · by_cases hty : u.type = TaskType.suite
    · rw [processChild_recurse hty (by rw [hsb]; simp)]
      simp only [Option.map_some', Option.some.injEq]
      rw [result_interpretTaskModes, hsb]
      simp [result_checkAllowOnly]
    · rw [processChild_not_suite hty]
      simp only [Option.map_some', Option.some.injEq]
      rw [hsb]
      simp [result_checkAllowOnly]
  · intro hty
    rw [processChild_not_suite (by simp [hty])]
    simp only [Option.map_some', Option.some.injEq]
    rw [hsb]
    simp

/-- Concrete tree for the C4 counterexample: an `only` suite whose only child
is a `todo` test. -/
def c4Tree : Task :=
  mkSuite "F" RunMode.run [mkSuite "S" RunMode.only [mkTest "c" RunMode.todo]]

/-- C4 counterexample: with `allowOnly = false` and `onlyMode = true`, the
`only` suite at [0] is processed, gets the synthetic failure result, is
promoted to `run`, but then the all-children-skipped rule demotes it to
`skip` — its final mode is not `run` as the claim states. -/
theorem claimC4_counterexample :
    someTasksAreOnly c4Tree = true
  ∧ (getPath c4Tree [0]).map Task.mode = some RunMode.only
  ∧ (getPath (interpretTaskModes c4Tree none true false false "") [0]).map
      (fun t => (t.mode, t.result))
      = some (RunMode.skip, some { state := ResultState.fail, errors := [onlyErrorMessage] }) := by
  refine ⟨?_, ?_, ?_⟩ <;>
    simp [interpretTaskModes, interpretChildren, processChild, stepBoth, onlyModeStep,
      nameStep, checkAllowOnly, skipAllTasks, skipChildren, someTasksAreOnly,
      someTasksAreOnlyList, joinName, getPath, Task.withMode, Task.withResult, Task.withTasks, c4Tree, mkSuite, mkTest]

/-- Witness tree for the amended C4: an `only` test at top level. -/
def c4WitnessTree : Task :=
  mkSuite "F" RunMode.run [mkTest "o" RunMode.only]

theorem claimC4_witness :
    ((getPath (interpretTaskModes c4WitnessTree none true false false "") [0]).map Task.result
      = some (some { state := ResultState.fail, errors := [onlyErrorMessage] }))
    ∧ ((getPath (interpretTaskModes c4WitnessTree none true false false "") [0]).map Task.mode
      = some RunMode.run) := by
  have h := claimC4 c4WitnessTree false false false "" "" [0] (mkTest "o" RunMode.only) rfl rfl
  exact ⟨by simpa using h.1, h.2 rfl⟩

/- Modelled from the spec: the runner that consumes interpreted trees is not
part of the sources under verification; the spec states that a descendant of
a `skip` Suite has effective mode `skip` by propagation, not independent
storage.  `applyEffective` computes the stored-to-effective rewriting: a node
below a `skip` ancestor is effectively `skip`, all other nodes keep their
stored mode. -/
mutual
def applyEffective : Bool → Task → Task
  | b, .mk i n ty m r ts =>
    .mk i n ty (if b then RunMode.skip else m) r
      (applyEffectiveList (b || m == RunMode.skip) ts)
termination_by _ t => t.size
decreasing_by all_goals (simp [Task.size, Task.sizeList]; try omega)

def applyEffectiveList : Bool → List Task → List Task
  | _, [] => []
  | b, t :: ts => applyEffective b t :: applyEffectiveList b ts
termination_by _ ts => Task.sizeList ts
decreasing_by all_goals (simp [Task.sizeList, Task.size]; try omega)
end

theorem applyEffectiveList_getElem (b : Bool) (ts : List Task) (i : Nat) :
    (applyEffectiveList b ts)[i]? = (ts[i]?).map (applyEffective b) := by
  induction ts generalizing i with
  | nil => simp only [applyEffectiveList]; simp
  | cons t ts ih =>
    simp only [applyEffectiveList]
    cases i with
    | zero => simp
    | succ j => simpa using ih j

theorem mode_getPath_applyEffective_true :
    ∀ (p : List Nat) (t v : Task),
    getPath (applyEffective true t) p = some v → v.mode = RunMode.skip := by
  intro p
  induction p with
  | nil =>
    intro t v h
    cases t with
    | mk i n ty m r ts =>
      simp only [applyEffective] at h
      simp only [getPath_nil, Option.some.injEq] at h
      subst h
      simp
  | cons i p ih =>
    intro t v h
    cases t with
    | mk tid tn tty tm tr tts =>
      simp only [applyEffective] at h
      rw [getPath_cons] at h
      simp only [Task.tasks_mk, Bool.true_or] at h
      rw [applyEffectiveList_getElem] at h
      cases hc : tts[i]? with
      | none => rw [hc] at h; simp at h
      | some c =>
        rw [hc] at h
        simp only [Option.map_some', Option.some_bind] at h
        exact ih c v h

theorem applyEffective_skip_propagates :
    ∀ (p : List Nat) (b : Bool) (t u : Task),
    getPath (applyEffective b t) p = some u →
    u.mode = RunMode.skip →
    ∀ (q : List Nat) (v : Task), q ≠ [] →
      getPath (applyEffective b t) (p ++ q) = some v →
      v.mode = RunMode.skip := by
  intro p
  induction p with
  | nil =>
    intro b t u h hm q v hq hv
    cases t with
    | mk tid tn tty tm tr tts =>
      simp only [applyEffective] at h hv
      simp only [getPath_nil, Option.some.injEq] at h
      cases q with
      | nil => exact absurd rfl hq
      | cons j q2 =>
        rw [List.nil_append, getPath_cons] at hv
        simp only [Task.tasks_mk] at hv
        have hflag : (b || tm == RunMode.skip) = true := by
          subst h
          simp only [Task.mode_mk] at hm
          cases b with
          | true => simp
          | false =>
            simp at hm
            simp [hm]
        rw [hflag] at hv
        rw [applyEffectiveList_getElem] at hv
        cases hc : tts[j]? with
        | none => rw [hc] at hv; simp at hv
        | some c =>
          rw [hc] at hv
          simp only [Option.map_some', Option.some_bind] at hv
          exact mode_getPath_applyEffective_true q2 c v hv
  | cons i p ih =>
    intro b t u h hm q v hq hv
    cases t with
    | mk tid tn tty tm tr tts =>
      simp only [applyEffective] at h hv
      rw [List.cons_append] at hv
      rw [getPath_cons] at h hv
      simp only [Task.tasks_mk] at h hv
      rw [applyEffectiveList_getElem] at h hv
      cases hc : tts[i]? with
      | none => rw [hc] at h; simp at h
      | some c =>
        rw [hc] at h hv
        simp only [Option.map_some', Option.some_bind] at h hv
        exact ih (b || tm == RunMode.skip) c u h hm q v hq hv

/-- C2 as corrected: after interpretTaskModes, every Suite whose mode is
`skip` has only descendants whose effective mode is `skip`, where the
effective mode is the stored mode with `skip` propagated to everything below
a `skip` ancestor (the spec's "propagation, not independent storage").
Stored modes of such descendants can remain non-skip. -/
theorem claimC2 :
    ∀ (s : Task) (np : Option (String → Bool)) (om pio ao : Bool) (pre : String)
      (p q : List Nat) (u v : Task),
    getPath (applyEffective false (interpretTaskModes s np om pio ao pre)) p = some u →
    u.type = TaskType.suite →
    u.mode = RunMode.skip →
    q ≠ [] →
    getPath (applyEffective false (interpretTaskModes s np om pio ao pre)) (p ++ q) = some v →
    v.mode = RunMode.skip := by
  intro s np om pio ao pre p q u v h1 _ h2 h3 h4
  exact applyEffective_skip_propagates p false (interpretTaskModes s np om pio ao pre)
    u h1 h2 q v h3 h4

/-- Concrete tree for the C2 counterexample: a `skip` suite holding a `todo`
test. -/
def c2Tree : Task :=
  mkSuite "F" RunMode.run [mkSuite "S" RunMode.skip [mkTest "c" RunMode.todo]]

/-- C2 counterexample: after interpretation of `c2Tree`, the Suite at [0] has
mode `skip` but its descendant test still has stored mode `todo` — a non-skip
stored mode among `run`/`only`/`todo`, contradicting the claim read on stored
modes. -/
theorem claimC2_counterexample :
    (getPath (interpretTaskModes c2Tree none false false true "") [0]).map
      (fun t => (t.mode, t.type)) = some (RunMode.skip, TaskType.suite)
  ∧ (getPath (interpretTaskModes c2Tree none false false true "") [0, 0]).map Task.mode
      = some RunMode.todo := by
  refine ⟨?_, ?_⟩ <;>
    simp [interpretTaskModes, interpretChildren, processChild, stepBoth, onlyModeStep,
      nameStep, checkAllowOnly, skipAllTasks, skipChildren, someTasksAreOnly,
      someTasksAreOnlyList, joinName, getPath, Task.withMode, Task.withResult, Task.withTasks,
      c2Tree, mkSuite, mkTest]

/-- The effective tree of the interpreted `c2Tree` at path [0]. -/
def c2EffSuite : Task :=
  Task.mk "" "S" TaskType.suite RunMode.skip none
    [Task.mk "" "c" TaskType.test RunMode.skip none []]

/-- The effective tree of the interpreted `c2Tree` at path [0, 0]. -/
def c2EffTest : Task := Task.mk "" "c" TaskType.test RunMode.skip none []

theorem claimC2_witness :
    (getPath (applyEffective false (interpretTaskModes c2Tree none false false true ""))
      ([0] ++ [0])).map Task.mode = some RunMode.skip := by
  have h1 : getPath (applyEffective false (interpretTaskModes c2Tree none false false true ""))
      [0] = some c2EffSuite := by
    simp [interpretTaskModes, interpretChildren, processChild, stepBoth, onlyModeStep,
      nameStep, checkAllowOnly, skipAllTasks, skipChildren, someTasksAreOnly,
      someTasksAreOnlyList, joinName, getPath, Task.withMode, Task.withResult, Task.withTasks,
      applyEffective, applyEffectiveList, c2Tree, c2EffSuite, mkSuite, mkTest]
  have h4 : getPath (applyEffective false (interpretTaskModes c2Tree none false false true ""))
      ([0] ++ [0]) = some c2EffTest := by
    simp [interpretTaskModes, interpretChildren, processChild, stepBoth, onlyModeStep,
      nameStep, checkAllowOnly, skipAllTasks, skipChildren, someTasksAreOnly,
      someTasksAreOnlyList, joinName, getPath, Task.withMode, Task.withResult, Task.withTasks,
      applyEffective, applyEffectiveList, c2Tree, c2EffTest, mkSuite, mkTest]
  have h := claimC2 c2Tree none false false true "" [0] [0] c2EffSuite c2EffTest
    h1 rfl rfl (by simp) h4
  rw [h4, Option.map_some', h]

/-- C7 (confirmed): each loop iteration of generateHash computes the 32-bit
truncation of `hash * 31 + charCode` (`(hash << 5) - hash + char` followed by
`hash & hash` is exactly that); the empty string hashes to "0"; and the
function is deterministic. -/
theorem claimC7 :
    (∀ (h : Int) (c : Nat), hashStep h c = toInt32 (31 * h + c))
  ∧ generateHash "" = "0"
  ∧ (∀ s : String, generateHash s = generateHash s) := by
  refine ⟨?_, ?_, fun s => rfl⟩
  · intro h c
    unfold hashStep toInt32
    dsimp only
    split_ifs <;> omega
  · rfl

/-- Decimal value of a digit string, used to invert `Nat.repr`. -/
def digitsVal (l : List Char) : Nat :=
  l.foldl (fun a c => 10 * a + (c.toNat - 48)) 0

theorem toDigitsCore_append (b : Nat) :
    ∀ (f n : Nat) (acc : List Char),
    Nat.toDigitsCore b f n acc = Nat.toDigitsCore b f n [] ++ acc := by
  intro f
  induction f with
  | zero => intro n acc; simp [Nat.toDigitsCore]
  | succ f ih =>
    intro n acc
    simp only [Nat.toDigitsCore]
    by_cases h : n / b = 0
    · simp [h]
    · rw [if_neg h, if_neg h, ih (n / b) (Nat.digitChar (n % b) :: acc),
        ih (n / b) [Nat.digitChar (n % b)]]
      simp

theorem digitChar_val {d : Nat} (h : d < 10) : (Nat.digitChar d).toNat - 48 = d := by
  interval_cases d <;> rfl

theorem foldl_toDigitsCore :
    ∀ (f n : Nat), n < f → ∀ (a : Nat),
    List.foldl (fun a c => 10 * a + (c.toNat - 48)) a (Nat.toDigitsCore 10 f n []) =
      a * 10 ^ (Nat.toDigitsCore 10 f n []).length + n := by
  intro f
  induction f with
  | zero => intro n h; omega
  | succ f ih =>
    intro n hn a
    simp only [Nat.toDigitsCore]
    by_cases h : n / 10 = 0
    · rw [if_pos h]
      have h10 : n < 10 := by omega
      have hm : n % 10 = n := Nat.mod_eq_of_lt h10
      simp only [List.foldl, List.length_cons, List.length_nil, hm, digitChar_val h10,
        Nat.zero_add, pow_one]
      omega
    · rw [if_neg h]
      rw [toDigitsCore_append 10 f (n / 10) [Nat.digitChar (n % 10)]]
      have hdiv : n / 10 < f := by
        have h1 : n / 10 < n := Nat.div_lt_self (by omega) (by omega)
        omega
      rw [List.foldl_append]
      rw [ih (n / 10) hdiv a]
      simp only [List.foldl, List.length_append, List.length_cons, List.length_nil]
      rw [digitChar_val (by omega : n % 10 < 10)]
      have : a * 10 ^ ((Nat.toDigitsCore 10 f (n / 10) []).length + (0 + 1))
          = a * 10 ^ (Nat.toDigitsCore 10 f (n / 10) []).length * 10 := by
        ring
      rw [this]
      have hnm := Nat.div_add_mod n 10
      omega

theorem digitsVal_repr (n : Nat) : digitsVal (Nat.repr n).data = n := by
  have h : (Nat.repr n).data = Nat.toDigitsCore 10 (n + 1) n [] := rfl
  rw [h]
  have := foldl_toDigitsCore (n + 1) n (by omega) 0
  simpa [digitsVal] using this

theorem repr_injective {m n : Nat} (h : Nat.repr m = Nat.repr n) : m = n := by
  have hd : (Nat.repr m).data = (Nat.repr n).data := by rw [h]
  calc m = digitsVal (Nat.repr m).data := (digitsVal_repr m).symm
    _ = digitsVal (Nat.repr n).data := by rw [hd]
    _ = n := digitsVal_repr n

theorem sibling_id_ne {pid : String} {i j : Nat} (h : i ≠ j) :
    pid ++ "_" ++ Nat.repr i ≠ pid ++ "_" ++ Nat.repr j := by
  intro he
  apply h
  apply repr_injective
  apply String.ext
  have hd := congrArg String.data he
  simp only [String.data_append] at hd
  exact List.append_cancel_left hd

@[simp] theorem Task.id_withTasks (t : Task) (ts : List Task) :
    (t.withTasks ts).id = t.id := by cases t; rfl

@[simp] theorem Task.id_withId (t : Task) (i : String) : (t.withId i).id = i := by
  cases t; rfl

@[simp] theorem Task.type_withId (t : Task) (i : String) : (t.withId i).type = t.type := by
  cases t; rfl

@[simp] theorem Task.tasks_withId (t : Task) (i : String) : (t.withId i).tasks = t.tasks := by
  cases t; rfl

@[simp] theorem id_calculateSuiteHash (t : Task) : (calculateSuiteHash t).id = t.id := by
  cases t; simp only [calculateSuiteHash]; simp

theorem tasks_calculateSuiteHash (t : Task) :
    (calculateSuiteHash t).tasks = calcChildren t.id 0 t.tasks := by
  cases t; simp only [calculateSuiteHash]; simp

/-- The elementwise transformation performed by calcChildren on the child at
offset `k` below a parent with id `pid`. -/
def hashOne (pid : String) (k : Nat) (c : Task) : Task :=
  if c.type == TaskType.suite then
    calculateSuiteHash (c.withId (pid ++ "_" ++ Nat.repr k))
  else c.withId (pid ++ "_" ++ Nat.repr k)

theorem id_hashOne (pid : String) (k : Nat) (c : Task) :
    (hashOne pid k c).id = pid ++ "_" ++ Nat.repr k := by
  unfold hashOne; split <;> simp

theorem hashOne_suite {c : Task} (pid : String) (k : Nat) (h : c.type = TaskType.suite) :
    hashOne pid k c = calculateSuiteHash (c.withId (pid ++ "_" ++ Nat.repr k)) := by
  unfold hashOne; rw [if_pos (by simp [h])]

theorem calcChildren_getElem (pid : String) :
    ∀ (ts : List Task) (idx i : Nat),
    (calcChildren pid idx ts)[i]? = (ts[i]?).map (hashOne pid (idx + i)) := by
  intro ts
  induction ts with
  | nil => intro idx i; rw [calcChildren]; simp
  | cons t ts ih =>
    intro idx i
    cases t with
    | mk ci cn cty cm cr cts =>
      rw [calcChildren]
      cases i with
      | zero =>
        simp only [List.getElem?_cons_zero, Option.map_some', Nat.add_zero]
        unfold hashOne
        by_cases hty : (cty == TaskType.suite) = true
        · rw [if_pos hty, if_pos (by simpa using hty)]
          rfl
        · rw [if_neg hty, if_neg (by simpa using hty)]
          rfl
      | succ j =>
        simp only [List.getElem?_cons_succ]
        rw [ih (idx + 1) j]
        have he : idx + 1 + j = idx + (j + 1) := by omega
        rw [he]

/-- The composite id that calculateSuiteHash assigns along a path. -/
def idFor (pid : String) (p : List Nat) : String :=
  p.foldl (fun acc i => acc ++ "_" ++ Nat.repr i) pid

theorem calcHash_id_formula :
    ∀ (p : List Nat) (t u : Task), Task.wf t = true → getPath t p = some u → p ≠ [] →
    (getPath (calculateSuiteHash t) p).map Task.id = some (idFor t.id p) := by
  intro p
  induction p with
  | nil => intro t u _ _ h; exact absurd rfl h
  | cons i rest ih =>
    intro t u hwf hget _
    obtain ⟨c, hc, hcrest⟩ := getPath_cons_some hget
    rw [getPath_cons, tasks_calculateSuiteHash, calcChildren_getElem, hc]
    simp only [Option.map_some', Option.some_bind, Nat.zero_add]
    cases rest with
    | nil =>
      simp only [getPath_nil, Option.map_some', id_hashOne]
      rfl
    | cons j rest2 =>
      obtain ⟨d, hd, _⟩ := getPath_cons_some hcrest
      have hwfc := wf_child hwf hc
      have hcty := type_suite_of_wf_child hwfc hd
      rw [hashOne_suite t.id i hcty]
      have hwf2 : Task.wf (c.withId (t.id ++ "_" ++ Nat.repr i)) = true := by
        rw [wf_of_parts (Task.type_withId c _) (Task.tasks_withId c _)]
        exact hwfc
      have hg2 : getPath (c.withId (t.id ++ "_" ++ Nat.repr i)) (j :: rest2) = some u := by
        rw [getPath_congr_tasks (Task.tasks_withId c _) j rest2]
        exact hcrest
      have hrec := ih (c.withId (t.id ++ "_" ++ Nat.repr i)) u hwf2 hg2 (by simp)
      rw [hrec]
      simp [idFor]

/-- C6 (confirmed): calculateSuiteHash assigns, at every path, the id built
by appending `_index` at each step to the parent's id (pre-order, depth
first); therefore ids depend only on the root id and the position, so two
trees with the same root id get identical ids at every common position, and
the ids assigned at two distinct sibling positions are always different (so
swapping two siblings changes both their ids). -/
theorem claimC6 :
    (∀ (p : List Nat) (t u : Task), Task.wf t = true → getPath t p = some u → p ≠ [] →
      (getPath (calculateSuiteHash t) p).map Task.id = some (idFor t.id p))
  ∧ (∀ (p : List Nat) (t1 t2 u1 u2 : Task), Task.wf t1 = true → Task.wf t2 = true →
      t1.id = t2.id → p ≠ [] → getPath t1 p = some u1 → getPath t2 p = some u2 →
      (getPath (calculateSuiteHash t1) p).map Task.id
        = (getPath (calculateSuiteHash t2) p).map Task.id)
  ∧ (∀ (t : Task) (i j : Nat) (ui uj : Task), Task.wf t = true → i ≠ j →
      getPath t [i] = some ui → getPath t [j] = some uj →
      (getPath (calculateSuiteHash t) [i]).map Task.id
        ≠ (getPath (calculateSuiteHash t) [j]).map Task.id) := by
  refine ⟨calcHash_id_formula, ?_, ?_⟩
  · intro p t1 t2 u1 u2 hw1 hw2 hid hp h1 h2
    rw [calcHash_id_formula p t1 u1 hw1 h1 hp, calcHash_id_formula p t2 u2 hw2 h2 hp, hid]
  · intro t i j ui uj hwf hij hi hj
    rw [calcHash_id_formula [i] t ui hwf hi (by simp),
      calcHash_id_formula [j] t uj hwf hj (by simp)]
    intro he
    simp only [Option.some.injEq] at he
    exact sibling_id_ne hij (by simpa [idFor] using he)

/-- Concrete tree for the C6 witness. -/
def c6Tree : Task :=
  Task.mk "r" "F" TaskType.suite RunMode.run none
    [mkTest "a" RunMode.run, mkTest "b" RunMode.run]

theorem claimC6_witness :
    ((getPath (calculateSuiteHash c6Tree) [1]).map Task.id = some (idFor "r" [1]))
  ∧ ((getPath (calculateSuiteHash c6Tree) [0]).map Task.id
      ≠ (getPath (calculateSuiteHash c6Tree) [1]).map Task.id) := by
  constructor
  · exact claimC6.1 [1] c6Tree (mkTest "b" RunMode.run)
      (by simp [Task.wf, Task.wfList, c6Tree, mkTest])
      (by simp [getPath, c6Tree, mkTest]) (by simp)
  · exact claimC6.2.2 c6Tree 0 1 (mkTest "a" RunMode.run) (mkTest "b" RunMode.run)
      (by simp [Task.wf, Task.wfList, c6Tree, mkTest]) (by omega)
      (by simp [getPath, c6Tree, mkTest]) (by simp [getPath, c6Tree, mkTest])

@[simp] theorem mode_calculateSuiteHash (t : Task) : (calculateSuiteHash t).mode = t.mode := by
  cases t; simp only [calculateSuiteHash]; simp

@[simp] theorem result_calculateSuiteHash (t : Task) :
    (calculateSuiteHash t).result = t.result := by
  cases t; simp only [calculateSuiteHash]; simp

theorem tasks_interpretTaskModes (s : Task) (np : Option (String → Bool))
    (om pio ao : Bool) (pre : String) :
    (interpretTaskModes s np om pio ao pre).tasks =
      interpretChildren np om ao (pio || s.mode == RunMode.only) pre s.tasks := by
  cases s; rw [interpretTaskModes]; simp

theorem mode_interpretTaskModes_of_any_run (s : Task) (np : Option (String → Bool))
    (om pio ao : Bool) (pre : String)
    (h : (interpretTaskModes s np om pio ao pre).tasks.any (fun c => c.mode == RunMode.run)
      = true) :
    (interpretTaskModes s np om pio ao pre).mode = s.mode := by
  cases s with
  | mk i n ty m r ts =>
    rw [interpretTaskModes] at h ⊢
    simp only [Task.tasks_mk, Task.mode_mk]
    have hall : ((interpretChildren np om ao (pio || m == RunMode.only) pre ts).all
        fun c => c.mode != RunMode.run) = false := by
      simp only [Task.tasks_mk, List.any_eq_true, beq_iff_eq] at h
      obtain ⟨c, hc, hcm⟩ := h
      cases hval : ((interpretChildren np om ao (pio || m == RunMode.only) pre ts).all
          fun c => c.mode != RunMode.run) with
      | false => rfl
      | true =>
        exfalso
        have hv := List.all_eq_true.mp hval c hc
        simp [hcm] at hv
    simp [hall]

/-- Outcome of the per-file try-block of collectTests (setup run, module
import, registration, collector resolution — all external effects): either
the resolved top-level tasks, or the tasks already pushed when an exception
was thrown, together with the normalised error message. -/
inductive CollectOutcome where
  | ok (tasks : List Task)
  | thrown (pushed : List Task) (error : String)

/-- A File: the root Suite of a tree plus the File-specific fields of
createFileTask (durations and meta are not modelled). -/
structure FileTask where
  task : Task
  filepath : String
  projectName : Option String
  pool : Option String

/-- The parts of the runner config that collectTests reads. -/
structure CollectConfig where
  root : String
  name : Option String
  testNamePattern : Option (String → Bool)
  allowOnly : Bool
  pool : Option String

/-- createFileTask from utils/collect.ts; `rel` is the external
`pathe.relative` capability.  The id is the hash of `path + (projectName or
empty)`, the name is the relative path, the mode is `run`. -/
def createFileTask (rel : String → String → String) (filepath root : String)
    (projectName : Option String) (pool : Option String) : FileTask :=
  let path := rel root filepath
  { task := Task.mk (generateHash (path ++ projectName.getD "")) path TaskType.suite
      RunMode.run none []
    filepath := filepath
    projectName := projectName
    pool := pool }

/-- The per-file body of the collectTests loop (collect.ts lines 30-106):
build the File, run the fallible collection (oracle), on a throw record the
fail result with the single normalised error, then always hash the tree,
scan for `only` tasks and interpret modes with `parentIsOnly = false`. -/
def collectFile (rel : String → String → String) (cfg : CollectConfig)
    (outcome : String → CollectOutcome) (filepath : String) : FileTask :=
  let file := createFileTask rel filepath cfg.root cfg.name cfg.pool
  let file :=
    match outcome filepath with
    | CollectOutcome.ok ts => { file with task := file.task.withTasks ts }
    | CollectOutcome.thrown ts e =>
      let failed := (file.task.withTasks ts).withResult
        (some { state := ResultState.fail, errors := [e] })
      { file with task := failed }
  let t := calculateSuiteHash file.task
  let hasOnlyTasks := someTasksAreOnly t
  { file with task := interpretTaskModes t cfg.testNamePattern hasOnlyTasks false cfg.allowOnly "" }

/-- collectTests from collect.ts: the sequential per-file loop; each file is
collected independently and appended to the output. -/
def collectTests (rel : String → String → String) (cfg : CollectConfig)
    (outcome : String → CollectOutcome) : List String → List FileTask
  | [] => []
  | fp :: rest => collectFile rel cfg outcome fp :: collectTests rel cfg outcome rest

theorem result_collectFile (rel : String → String → String) (cfg : CollectConfig)
    (outcome : String → CollectOutcome) (fp : String) :
    (collectFile rel cfg outcome fp).task.result =
      match outcome fp with
      | CollectOutcome.ok _ => none
      | CollectOutcome.thrown _ e => some { state := ResultState.fail, errors := [e] } := by
  cases ho : outcome fp with
  | ok ts =>
    simp only [collectFile, ho]
    simp [result_interpretTaskModes, createFileTask]
  | thrown ts e =>
    simp only [collectFile, ho]
    simp [result_interpretTaskModes, createFileTask]

/-- C3 (confirmed): collectTests never aborts early (one output File per
input path), the batch is the concatenation of independently collected
files, a file whose collection throws gets `result = fail` with exactly the
one normalised error, and a file that collects cleanly has no result
attached and keeps its `run` mode whenever some collected task ends in mode
`run`. -/
theorem claimC3 :
    (∀ (rel : String → String → String) (cfg : CollectConfig)
       (outcome : String → CollectOutcome) (paths : List String),
       (collectTests rel cfg outcome paths).length = paths.length)
  ∧ (∀ (rel : String → String → String) (cfg : CollectConfig)
       (outcome : String → CollectOutcome) (xs ys : List String),
       collectTests rel cfg outcome (xs ++ ys)
         = collectTests rel cfg outcome xs ++ collectTests rel cfg outcome ys)
  ∧ (∀ (rel : String → String → String) (cfg : CollectConfig)
       (outcome : String → CollectOutcome) (fp : String) (ts : List Task) (e : String),
       outcome fp = CollectOutcome.thrown ts e →
       (collectFile rel cfg outcome fp).task.result
         = some { state := ResultState.fail, errors := [e] })
  ∧ (∀ (rel : String → String → String) (cfg : CollectConfig)
       (outcome : String → CollectOutcome) (fp : String) (ts : List Task),
       outcome fp = CollectOutcome.ok ts →
       (collectFile rel cfg outcome fp).task.result = none
       ∧ ((collectFile rel cfg outcome fp).task.tasks.any (fun c => c.mode == RunMode.run)
            = true →
          (collectFile rel cfg outcome fp).task.mode = RunMode.run)) := by
  refine ⟨?_, ?_, ?_, ?_⟩
  · intro rel cfg outcome paths
    induction paths with
    | nil => rfl
    | cons fp rest ih => simp [collectTests, ih]
  · intro rel cfg outcome xs ys
    induction xs with
    | nil => simp [collectTests]
    | cons fp rest ih => simp [collectTests, ih]
  · intro rel cfg outcome fp ts e h
    rw [result_collectFile, h]
  · intro rel cfg outcome fp ts h
    constructor
    · rw [result_collectFile, h]
    · intro hany
      simp only [collectFile, h] at hany ⊢
      rw [mode_interpretTaskModes_of_any_run _ _ _ _ _ _ hany]
      simp [createFileTask]

/-- Config for the C3 witness. -/
def c3Cfg : CollectConfig :=
  { root := "", name := none, testNamePattern := none, allowOnly := true, pool := none }

/-- Oracle for the C3 witness: collecting "bad" throws, anything else yields
one run-mode test. -/
def c3Oracle : String → CollectOutcome := fun fp =>
  if fp = "bad" then CollectOutcome.thrown [] "boom"
  else CollectOutcome.ok [mkTest "t" RunMode.run]

theorem claimC3_witness :
    (collectTests (fun _ fp => fp) c3Cfg c3Oracle ["bad", "good"]).length = 2
  ∧ (collectFile (fun _ fp => fp) c3Cfg c3Oracle "bad").task.result
      = some { state := ResultState.fail, errors := ["boom"] }
  ∧ (collectFile (fun _ fp => fp) c3Cfg c3Oracle "good").task.mode = RunMode.run := by
  refine ⟨by simpa using claimC3.1 (fun _ fp => fp) c3Cfg c3Oracle ["bad", "good"], ?_, ?_⟩
  · exact claimC3.2.2.1 (fun _ fp => fp) c3Cfg c3Oracle "bad" [] "boom" (by simp [c3Oracle])
  · apply (claimC3.2.2.2 (fun _ fp => fp) c3Cfg c3Oracle "good" [mkTest "t" RunMode.run]
      (by simp [c3Oracle])).2
    simp [collectFile, c3Oracle, c3Cfg, createFileTask, tasks_interpretTaskModes,
      interpretChildren, processChild, stepBoth, onlyModeStep, nameStep, checkAllowOnly,
      someTasksAreOnly, someTasksAreOnlyList, calculateSuiteHash, calcChildren,
      Task.withTasks, Task.withMode, Task.withId, mkTest, joinName]

/-- Set-like insertion into a list (JS `Set.add`): append unless present. -/
def addTo (l : List String) (x : String) : List String :=
  if l.contains x then l else l ++ [x]

/-- Insert every element (JS `forEach(x => set.add(x))`). -/
def addAll (l : List String) (xs : List String) : List String :=
  xs.foldl addTo l

/-- JS `Array.from(new Set(files))`: deduplicate keeping first occurrences. -/
def dedupFirst : List String → List String
  | [] => []
  | x :: xs => x :: dedupFirst (xs.filter fun y => y != x)
termination_by l => l.length
decreasing_by
  simp only [List.length_cons]
  exact Nat.lt_succ_of_le (List.length_filter_le _ _)

/-- A project as handleFileChanged sees it: `getModulesByFilepath` as a
finite association from file paths to the modules loaded from them (each
module represented by the `file`s of its importers, `none` when an importer
carries no file metadata), plus the `isTestFile` classification. -/
structure Project where
  modules : List (String × List (List (Option String)))
  isTestFile : String → Bool

/-- The ambient Vitest instance state read by handleFileChanged. -/
structure VitestEnv where
  projects : List Project
  forceRerunTrigger : String → Bool
  filesMapKeys : List String
  knownFilepaths : List String

/-- The two pending sets mutated by handleFileChanged. -/
structure WatcherState where
  changedTests : List String
  invalidates : List String

/-- `project.getModulesByFilepath(filepath)`. -/
def lookupMods (pr : Project) (fp : String) : List (List (Option String)) :=
  match pr.modules.find? (fun e => e.1 == fp) with
  | some e => e.2
  | none => []

/-- getModuleProjects from core.ts: projects with at least one module for
the file. -/
def getModuleProjects (env : VitestEnv) (fp : String) : List Project :=
  env.projects.filter fun pr => !(lookupMods pr fp).isEmpty

/- handleFileChanged from core.ts lines 928-986, fuelled (the fuel only
bounds the recursion depth; the stability theorem below shows every large
enough fuel gives the same result, i.e. the walk terminates on every graph).
`projectsLoop` is the `for (const project of projects)` loop carrying the
`files` accumulator, `modsLoop` the `for (const mod of mods)` loop and
`importersLoop` the `mod.importers.forEach` carrying the `rerun` flag. -/
mutual
def handleFileChanged (env : VitestEnv) : Nat → WatcherState → String → WatcherState × List String
  | 0, s, _ => (s, [])
  | fuel + 1, s, filepath =>
    if s.changedTests.contains filepath || s.invalidates.contains filepath then (s, [])
    else if env.forceRerunTrigger filepath then
      ({ s with changedTests := addAll s.changedTests env.knownFilepaths }, [filepath])
    else if (getModuleProjects env filepath).isEmpty then
      if env.filesMapKeys.contains filepath
          || env.projects.any (fun pr => pr.isTestFile filepath) then
        ({ s with changedTests := addTo s.changedTests filepath }, [filepath])
      else (s, [])
    else
      projectsLoop env fuel filepath (getModuleProjects env filepath) s []
termination_by fuel _ _ => (fuel, 0, 0)

def projectsLoop (env : VitestEnv) (fuel : Nat) (filepath : String) :
    List Project → WatcherState → List String → WatcherState × List String
  | [], s, files => (s, dedupFirst files)
  | pr :: rest, s, files =>
    if (lookupMods pr filepath).isEmpty then
      projectsLoop env fuel filepath rest s files
    else
      let s1 : WatcherState := { s with invalidates := addTo s.invalidates filepath }
      if env.filesMapKeys.contains filepath || pr.isTestFile filepath then
        projectsLoop env fuel filepath rest
          { s1 with changedTests := addTo s1.changedTests filepath } (files ++ [filepath])
      else
        let sr := modsLoop env fuel (lookupMods pr filepath) s1 false
        projectsLoop env fuel filepath rest sr.1
          (if sr.2 then files ++ [filepath] else files)
termination_by prs _ _ => (fuel, 3, prs.length)

def modsLoop (env : VitestEnv) (fuel : Nat) :
    List (List (Option String)) → WatcherState → Bool → WatcherState × Bool
  | [], s, rerun => (s, rerun)
  | mod :: rest, s, rerun =>
    let sr := importersLoop env fuel mod s rerun
    modsLoop env fuel rest sr.1 sr.2
termination_by mods _ _ => (fuel, 2, mods.length)

def importersLoop (env : VitestEnv) (fuel : Nat) :
    List (Option String) → WatcherState → Bool → WatcherState × Bool
  | [], s, rerun => (s, rerun)
  | none :: rest, s, rerun => importersLoop env fuel rest s rerun
  | some f :: rest, s, rerun =>
    let sr := handleFileChanged env fuel s f
    importersLoop env fuel rest sr.1 (if sr.2.isEmpty then rerun else true)
termination_by imps _ _ => (fuel, 1, imps.length)
end

/-- The instance state touched by the debounce-timer callback of
scheduleRerun (core.ts lines 783-827). -/
structure SchedulerState where
  watchedTests : List String
  changedTests : List String
  invalidates : List String

/-- watchTests from core.ts lines 840-844; `slash` is the external path
normaliser. -/
def watchTests (slash : String → String) (st : SchedulerState)
    (tests : List String) : SchedulerState :=
  { st with watchedTests := tests.map slash }

/-- The body of the debounce-timer callback of scheduleRerun (core.ts lines
783-827): restrict the pending changed set to the watched tests when a watch
restriction is active; when nothing remains, clear the invalidation set and
do not run; otherwise (unless the server restarted) snapshot the pending
set, apply the filename-pattern restriction (the external glob resolution is
the `flt` predicate), clear the pending set and fire the run.  The returned
Option is the batch handed to runFiles (`none` = no run started). -/
def rerunFire (st : SchedulerState) (serverRestarted : Bool)
    (flt : Option (String → Bool)) : SchedulerState × Option (List String) :=
  let st1 := if !st.watchedTests.isEmpty then
      { st with changedTests := st.changedTests.filter fun t => st.watchedTests.contains t }
    else st
  if st1.changedTests.isEmpty then ({ st1 with invalidates := [] }, none)
  else if serverRestarted then (st1, none)
  else
    let files := st1.changedTests
    match flt with
    | some pat =>
      let files2 := files.filter pat
      if files2.isEmpty then (st1, none)
      else ({ st1 with changedTests := [] }, some files2)
    | none => ({ st1 with changedTests := [] }, some files)

/-- C9 counterexample: with watched set `{a}`, pending changed set `{b}` and
pending invalidation set `{x}`, the timer fires, the intersection is empty,
no run is started — and the invalidation set is cleared, not preserved as
the claim states. -/
theorem claimC9_counterexample :
    (rerunFire ⟨["a"], ["b"], ["x"]⟩ false none).2 = none
  ∧ (rerunFire ⟨["a"], ["b"], ["x"]⟩ false none).1.invalidates = []
  ∧ (["x"] : List String) ≠ [] := by
  refine ⟨rfl, rfl, by simp⟩

/-- C9 as corrected: when a watch-tests restriction is active and the
debounce timer fires, the pending changed set is intersected with the
watched set first; if the intersection is empty, no run is started, the
changed set ends empty, and the pending invalidation set is CLEARED. -/
theorem claimC9 :
    ∀ (st : SchedulerState) (restarted : Bool) (flt : Option (String → Bool)),
    st.watchedTests ≠ [] →
    st.changedTests.filter (fun t => st.watchedTests.contains t) = [] →
    rerunFire st restarted flt
      = ({ st with changedTests := [], invalidates := [] }, none) := by
  intro st restarted flt hw hf
  have hw2 : st.watchedTests.isEmpty = false := by
    cases h : st.watchedTests with
    | nil => exact absurd h hw
    | cons a l => rfl
  have hf2 : List.filter (fun t => decide (t ∈ st.watchedTests)) st.changedTests = [] := by
    simpa using hf
  simp [rerunFire, hw2, hf2]

theorem claimC9_witness :
    rerunFire ⟨["a"], ["b"], ["x"]⟩ false none
      = (⟨["a"], [], []⟩, none) := by
  have h := claimC9 ⟨["a"], ["b"], ["x"]⟩ false none (by simp) (by simp)
  simpa using h

/-- Pointwise growth of the two pending sets. -/
def WatcherState.le (s s' : WatcherState) : Prop :=
  (∀ x, s.changedTests.contains x = true → s'.changedTests.contains x = true) ∧
  (∀ x, s.invalidates.contains x = true → s'.invalidates.contains x = true)

theorem WatcherState.le_rfl (s : WatcherState) : s.le s :=
  ⟨fun _ h => h, fun _ h => h⟩

theorem WatcherState.le_trans {s1 s2 s3 : WatcherState} (h1 : s1.le s2) (h2 : s2.le s3) :
    s1.le s3 :=
  ⟨fun x h => h2.1 x (h1.1 x h), fun x h => h2.2 x (h1.2 x h)⟩

theorem contains_addTo_self (l : List String) (x : String) :
    (addTo l x).contains x = true := by
  unfold addTo
  split
  · assumption
  · simp

theorem contains_addTo_of {l : List String} {y : String} (x : String)
    (h : l.contains y = true) : (addTo l x).contains y = true := by
  unfold addTo
  split
  · exact h
  · simp at h ⊢
    exact Or.inl h

theorem contains_addAll_of {l : List String} {y : String} (xs : List String)
    (h : l.contains y = true) : (addAll l xs).contains y = true := by
  induction xs generalizing l with
  | nil => exact h
  | cons x rest ih => exact ih (contains_addTo_of x h)

theorem le_addTo_inval (s : WatcherState) (x : String) :
    s.le { s with invalidates := addTo s.invalidates x } :=
  ⟨fun _ h => h, fun _ h => contains_addTo_of x h⟩

theorem le_addTo_changed (s : WatcherState) (x : String) :
    s.le { s with changedTests := addTo s.changedTests x } :=
  ⟨fun _ h => contains_addTo_of x h, fun _ h => h⟩

theorem le_addAll_changed (s : WatcherState) (xs : List String) :
    s.le { s with changedTests := addAll s.changedTests xs } :=
  ⟨fun _ h => contains_addAll_of xs h, fun _ h => h⟩

theorem handle_mono :
    ∀ (fuel : Nat) (env : VitestEnv) (s : WatcherState) (p : String),
    s.le (handleFileChanged env fuel s p).1 := by
  intro fuel
  induction fuel with
  | zero =>
    intro env s p
    simp only [handleFileChanged]
    exact WatcherState.le_rfl s
  | succ n ih =>
    intro env s p
    have himp : ∀ (imps : List (Option String)) (s : WatcherState) (r : Bool),
        s.le (importersLoop env n imps s r).1 := by
      intro imps
      induction imps with
      | nil =>
        intro s r
        simp only [importersLoop]
        exact WatcherState.le_rfl s
      | cons o rest ihr =>
        intro s r
        cases o with
        | none =>
          simp only [importersLoop]
          exact ihr s r
        | some f =>
          simp only [importersLoop]
          exact WatcherState.le_trans (ih env s f) (ihr _ _)
    have hmods : ∀ (mods : List (List (Option String))) (s : WatcherState) (r : Bool),
        s.le (modsLoop env n mods s r).1 := by
      intro mods
      induction mods with
      | nil =>
        intro s r
        simp only [modsLoop]
        exact WatcherState.le_rfl s
      | cons m rest ihr =>
        intro s r
        simp only [modsLoop]
        exact WatcherState.le_trans (himp m s r) (ihr _ _)
    have hproj : ∀ (fp : String) (prs : List Project) (s : WatcherState) (files : List String),
        s.le (projectsLoop env n fp prs s files).1 := by
      intro fp prs
      induction prs with
      | nil =>
        intro s files
        simp only [projectsLoop]
        exact WatcherState.le_rfl s
      | cons pr rest ihr =>
        intro s files
        simp only [projectsLoop]
        by_cases hm : (lookupMods pr fp).isEmpty = true
        · rw [if_pos hm]
          exact ihr s files
        · rw [if_neg hm]
          by_cases ht : (env.filesMapKeys.contains fp || pr.isTestFile fp) = true
          · rw [if_pos ht]
            exact WatcherState.le_trans
              (WatcherState.le_trans (le_addTo_inval s fp) (le_addTo_changed _ fp)) (ihr _ _)
          · rw [if_neg ht]
            exact WatcherState.le_trans
              (WatcherState.le_trans (le_addTo_inval s fp) (hmods _ _ _)) (ihr _ _)
    simp only [handleFileChanged]
    by_cases h1 : (s.changedTests.contains p || s.invalidates.contains p) = true
    · rw [if_pos h1]
      exact WatcherState.le_rfl s
    · rw [if_neg h1]
      by_cases h2 : env.forceRerunTrigger p = true
      · rw [if_pos h2]
        exact le_addAll_changed s env.knownFilepaths
      · rw [if_neg h2]
        by_cases h3 : (getModuleProjects env p).isEmpty = true
        · rw [if_pos h3]
          by_cases h4 : (env.filesMapKeys.contains p
              || env.projects.any fun pr => pr.isTestFile p) = true
          · rw [if_pos h4]
            exact le_addTo_changed s p
          · rw [if_neg h4]
            exact WatcherState.le_rfl s
        · rw [if_neg h3]
          exact hproj p _ s []

theorem importersLoop_mono (env : VitestEnv) (g : Nat) :
    ∀ (imps : List (Option String)) (s : WatcherState) (r : Bool),
    s.le (importersLoop env g imps s r).1 := by
  intro imps
  induction imps with
  | nil => intro s r; simp only [importersLoop]; exact WatcherState.le_rfl s
  | cons o rest ihr =>
    intro s r
    cases o with
    | none => simp only [importersLoop]; exact ihr s r
    | some f =>
      simp only [importersLoop]
      exact WatcherState.le_trans (handle_mono g env s f) (ihr _ _)

theorem modsLoop_mono (env : VitestEnv) (g : Nat) :
    ∀ (mods : List (List (Option String))) (s : WatcherState) (r : Bool),
    s.le (modsLoop env g mods s r).1 := by
  intro mods
  induction mods with
  | nil => intro s r; simp only [modsLoop]; exact WatcherState.le_rfl s
  | cons m rest ihr =>
    intro s r
    simp only [modsLoop]
    exact WatcherState.le_trans (importersLoop_mono env g m s r) (ihr _ _)

/-- All file paths that occur as module keys of some project: the finite
universe over which the recursive walk can invalidate. -/
def graphKeys (env : VitestEnv) : List String :=
  (env.projects.map fun pr => pr.modules.map Prod.fst).flatten

/-- Number of graph keys not yet marked changed or invalidated: the measure
that shrinks at every recursive call of handleFileChanged. -/
def unvisitedCount (env : VitestEnv) (s : WatcherState) : Nat :=
  ((graphKeys env).filter fun k =>
    !(s.changedTests.contains k || s.invalidates.contains k)).length

theorem filter_length_le' {α : Type} (l : List α) (p q : α → Bool)
    (h : ∀ x, q x = true → p x = true) :
    (l.filter q).length ≤ (l.filter p).length := by
  induction l with
  | nil => simp
  | cons a l ih =>
    simp only [List.filter_cons]
    by_cases hq : q a = true
    · rw [if_pos hq, if_pos (h a hq)]
      simpa using ih
    · rw [if_neg hq]
      split
      · simp only [List.length_cons]
        omega
      · exact ih

theorem filter_length_lt' {α : Type} (l : List α) (p q : α → Bool)
    (h : ∀ x, q x = true → p x = true) (a : α) (ha : a ∈ l) (hpa : p a = true)
    (hqa : q a = false) :
    (l.filter q).length < (l.filter p).length := by
  induction l with
  | nil => simp at ha
  | cons b l ih =>
    simp only [List.filter_cons]
    rcases List.mem_cons.mp ha with rfl | hmem
    · rw [if_pos hpa, if_neg (by simp [hqa])]
      simp only [List.length_cons]
      exact Nat.lt_succ_of_le (filter_length_le' l p q h)
    · by_cases hq : q b = true
      · rw [if_pos hq, if_pos (h b hq)]
        simpa using ih hmem
      · rw [if_neg hq]
        split
        · simp only [List.length_cons]
          exact Nat.lt_succ_of_le (Nat.le_of_lt (ih hmem))
        · exact ih hmem

theorem unvisited_imp {s s' : WatcherState} (hle : s.le s') :
    ∀ x, (!(s'.changedTests.contains x || s'.invalidates.contains x)) = true →
      (!(s.changedTests.contains x || s.invalidates.contains x)) = true := by
  intro x hx
  simp only [Bool.not_eq_true', Bool.or_eq_false_iff] at hx ⊢
  constructor
  · cases hc : s.changedTests.contains x with
    | false => rfl
    | true => exact absurd (hle.1 x hc) (by simpa using hx.1)
  · cases hc : s.invalidates.contains x with
    | false => rfl
    | true => exact absurd (hle.2 x hc) (by simpa using hx.2)

theorem unvisited_le (env : VitestEnv) {s s' : WatcherState} (hle : s.le s') :
    unvisitedCount env s' ≤ unvisitedCount env s :=
  filter_length_le' _ _ _ (unvisited_imp hle)

theorem unvisited_lt (env : VitestEnv) {s s' : WatcherState} {fp : String}
    (hle : s.le s') (hmem : fp ∈ graphKeys env)
    (hv' : (s'.changedTests.contains fp || s'.invalidates.contains fp) = true)
    (hv : (s.changedTests.contains fp || s.invalidates.contains fp) = false) :
    unvisitedCount env s' < unvisitedCount env s := by
  apply filter_length_lt' _ _ _ (unvisited_imp hle) fp hmem
  · rw [hv]
    rfl
  · rw [hv']
    rfl

theorem mem_graphKeys {env : VitestEnv} {pr : Project} {fp : String}
    (hpr : pr ∈ env.projects) (hne : (lookupMods pr fp).isEmpty = false) :
    fp ∈ graphKeys env := by
  unfold lookupMods at hne
  cases hfind : pr.modules.find? (fun e => e.1 == fp) with
  | none =>
    rw [hfind] at hne
    simp at hne
  | some e =>
    have hmem := List.mem_of_find?_eq_some hfind
    have hbeq := List.find?_some hfind
    simp only [beq_iff_eq] at hbeq
    unfold graphKeys
    rw [List.mem_flatten]
    refine ⟨pr.modules.map Prod.fst, List.mem_map_of_mem _ hpr, ?_⟩
    rw [← hbeq]
    exact List.mem_map_of_mem _ hmem

theorem importersLoop_congr (env : VitestEnv) (g1 g2 : Nat) (Q : WatcherState → Prop)
    (H : ∀ s q, Q s → handleFileChanged env g1 s q = handleFileChanged env g2 s q)
    (HQ : ∀ s q, Q s → Q (handleFileChanged env g1 s q).1) :
    ∀ (imps : List (Option String)) (s : WatcherState) (r : Bool), Q s →
    importersLoop env g1 imps s r = importersLoop env g2 imps s r := by
  intro imps
  induction imps with
  | nil => intro s r _; simp only [importersLoop]
  | cons o rest ihr =>
    intro s r hQ
    cases o with
    | none =>
      simp only [importersLoop]
      exact ihr s r hQ
    | some f =>
      simp only [importersLoop]
      have he := H s f hQ
      rw [← he]
      exact ihr _ _ (HQ s f hQ)

theorem importersLoop_Q (env : VitestEnv) (g1 : Nat) (Q : WatcherState → Prop)
    (HQ : ∀ s q, Q s → Q (handleFileChanged env g1 s q).1) :
    ∀ (imps : List (Option String)) (s : WatcherState) (r : Bool), Q s →
    Q (importersLoop env g1 imps s r).1 := by
  intro imps
  induction imps with
  | nil => intro s r hQ; simp only [importersLoop]; exact hQ
  | cons o rest ihr =>
    intro s r hQ
    cases o with
    | none => simp only [importersLoop]; exact ihr s r hQ
    | some f =>
      simp only [importersLoop]
      exact ihr _ _ (HQ s f hQ)

theorem modsLoop_congr (env : VitestEnv) (g1 g2 : Nat) (Q : WatcherState → Prop)
    (H : ∀ s q, Q s → handleFileChanged env g1 s q = handleFileChanged env g2 s q)
    (HQ : ∀ s q, Q s → Q (handleFileChanged env g1 s q).1) :
    ∀ (mods : List (List (Option String))) (s : WatcherState) (r : Bool), Q s →
    modsLoop env g1 mods s r = modsLoop env g2 mods s r := by
  intro mods
  induction mods with
  | nil => intro s r _; simp only [modsLoop]
  | cons m rest ihr =>
    intro s r hQ
    simp only [modsLoop]
    have he := importersLoop_congr env g1 g2 Q H HQ m s r hQ
    rw [← he]
    exact ihr _ _ (importersLoop_Q env g1 Q HQ m s r hQ)

theorem modsLoop_Q (env : VitestEnv) (g1 : Nat) (Q : WatcherState → Prop)
    (HQ : ∀ s q, Q s → Q (handleFileChanged env g1 s q).1) :
    ∀ (mods : List (List (Option String))) (s : WatcherState) (r : Bool), Q s →
    Q (modsLoop env g1 mods s r).1 := by
  intro mods
  induction mods with
  | nil => intro s r hQ; simp only [modsLoop]; exact hQ
  | cons m rest ihr =>
    intro s r hQ
    simp only [modsLoop]
    exact ihr _ _ (importersLoop_Q env g1 Q HQ m s r hQ)

theorem projectsLoop_congr (env : VitestEnv) (g1 g2 : Nat) (fp : String) (s0 : WatcherState)
    (H : ∀ s q, WatcherState.le s0 s → s.invalidates.contains fp = true →
         fp ∈ graphKeys env →
         handleFileChanged env g1 s q = handleFileChanged env g2 s q) :
    ∀ (prs : List Project) (s : WatcherState) (files : List String),
    (∀ pr ∈ prs, pr ∈ env.projects) → WatcherState.le s0 s →
    projectsLoop env g1 fp prs s files = projectsLoop env g2 fp prs s files := by
  intro prs
  induction prs with
  | nil => intro s files _ _; simp only [projectsLoop]
  | cons pr rest ihr =>
    intro s files hsub hle
    simp only [projectsLoop]
    by_cases hm : (lookupMods pr fp).isEmpty = true
    · rw [if_pos hm, if_pos hm]
      exact ihr s files (fun pr' h => hsub pr' (List.mem_cons_of_mem _ h)) hle
    · rw [if_neg hm, if_neg hm]
      have hmem : fp ∈ graphKeys env :=
        mem_graphKeys (hsub pr (List.mem_cons_self _ _)) (by simpa using hm)
      by_cases ht : (env.filesMapKeys.contains fp || pr.isTestFile fp) = true
      · rw [if_pos ht, if_pos ht]
        exact ihr _ _ (fun pr' h => hsub pr' (List.mem_cons_of_mem _ h))
          (WatcherState.le_trans hle
            (WatcherState.le_trans (le_addTo_inval s fp) (le_addTo_changed _ fp)))
      · rw [if_neg ht, if_neg ht]
        have hQs1 : WatcherState.le s0 { s with invalidates := addTo s.invalidates fp }
            ∧ ({ s with invalidates := addTo s.invalidates fp } :
                WatcherState).invalidates.contains fp = true :=
          ⟨WatcherState.le_trans hle (le_addTo_inval s fp), contains_addTo_self _ _⟩
        have hQ : ∀ s' q,
            (WatcherState.le s0 s' ∧ s'.invalidates.contains fp = true) →
            (WatcherState.le s0 (handleFileChanged env g1 s' q).1 ∧
             (handleFileChanged env g1 s' q).1.invalidates.contains fp = true) :=
          fun s' q hq => ⟨WatcherState.le_trans hq.1 (handle_mono g1 env s' q),
            (handle_mono g1 env s' q).2 fp hq.2⟩
        have Hq : ∀ s' q,
            (WatcherState.le s0 s' ∧ s'.invalidates.contains fp = true) →
            handleFileChanged env g1 s' q = handleFileChanged env g2 s' q :=
          fun s' q hq => H s' q hq.1 hq.2 hmem
        have hml := modsLoop_congr env g1 g2 _ Hq hQ (lookupMods pr fp)
          { s with invalidates := addTo s.invalidates fp } false hQs1
        rw [← hml]
        have hout := modsLoop_Q env g1 _ hQ (lookupMods pr fp)
          { s with invalidates := addTo s.invalidates fp } false hQs1
        exact ihr _ _ (fun pr' h => hsub pr' (List.mem_cons_of_mem _ h)) hout.1

theorem handleFileChanged_stable :
    ∀ (n : Nat) (env : VitestEnv) (s : WatcherState) (p : String) (f1 f2 : Nat),
    unvisitedCount env s = n → n < f1 → n < f2 →
    handleFileChanged env f1 s p = handleFileChanged env f2 s p := by
  intro n
  induction n using Nat.strong_induction_on with
  | _ n ih =>
    intro env s p f1 f2 hn h1 h2
    cases f1 with
    | zero => omega
    | succ g1 =>
      cases f2 with
      | zero => omega
      | succ g2 =>
        simp only [handleFileChanged]
        by_cases hv : (s.changedTests.contains p || s.invalidates.contains p) = true
        · rw [if_pos hv, if_pos hv]
        · rw [if_neg hv, if_neg hv]
          by_cases h2f : env.forceRerunTrigger p = true
          · rw [if_pos h2f, if_pos h2f]
          · rw [if_neg h2f, if_neg h2f]
            by_cases h3 : (getModuleProjects env p).isEmpty = true
            · rw [if_pos h3, if_pos h3]
            · rw [if_neg h3, if_neg h3]
              apply projectsLoop_congr env g1 g2 p s ?H _ s []
                (fun pr hpr => (List.mem_filter.mp hpr).1) (WatcherState.le_rfl s)
              intro s' q hle hinv hmem
              have hlt : unvisitedCount env s' < n := by
                subst hn
                exact unvisited_lt env hle hmem
                  (by simp only [Bool.or_eq_true]; exact Or.inr hinv) (by simpa using hv)
              exact ih _ hlt env s' q g1 g2 rfl (by omega) (by omega)

/-- C8 (confirmed): handleFileChanged terminates on every importer graph,
cycles included — the fuelled recursion is stable once the fuel exceeds the
number of graph keys not yet marked, which works because each path is added
to the invalidated set (in projectsLoop) before its importers are visited,
so no path is expanded twice in one change cycle; a path already in the
changed or invalidated set returns immediately with an empty result; and an
importer entry without file metadata is skipped silently. -/
theorem claimC8 :
    (∀ (env : VitestEnv) (fuel : Nat) (s : WatcherState) (p : String),
      0 < fuel →
      (s.changedTests.contains p || s.invalidates.contains p) = true →
      handleFileChanged env fuel s p = (s, []))
  ∧ (∀ (env : VitestEnv) (s : WatcherState) (p : String) (f1 f2 : Nat),
      unvisitedCount env s < f1 → unvisitedCount env s < f2 →
      handleFileChanged env f1 s p = handleFileChanged env f2 s p)
  ∧ (∀ (env : VitestEnv) (fuel : Nat) (imps : List (Option String))
      (s : WatcherState) (r : Bool),
      importersLoop env fuel ((none : Option String) :: imps) s r
        = importersLoop env fuel imps s r) := by
  refine ⟨?_, ?_, ?_⟩
  · intro env fuel s p hf hvis
    cases fuel with
    | zero => omega
    | succ g =>
      simp only [handleFileChanged]
      rw [if_pos hvis]
  · intro env s p f1 f2 h1 h2
    exact handleFileChanged_stable (unvisitedCount env s) env s p f1 f2 rfl h1 h2
  · intro env fuel imps s r
    simp only [importersLoop]

/-- A two-module importer graph with a cycle (a imports b, b imports a),
where only "a" is a test file. -/
def env8 : VitestEnv :=
  VitestEnv.mk
    [Project.mk [("a", [[some "b"]]), ("b", [[some "a"]])] (fun f => f == "a")]
    (fun _ => false) [] []

theorem claimC8_witness :
    handleFileChanged env8 1 ⟨["a"], []⟩ "a" = (⟨["a"], []⟩, [])
  ∧ handleFileChanged env8 3 ⟨[], []⟩ "b" = handleFileChanged env8 4 ⟨[], []⟩ "b" := by
  constructor
  · exact claimC8.1 env8 1 ⟨["a"], []⟩ "a" (by omega) (by decide)
  · exact claimC8.2.1 env8 ⟨[], []⟩ "b" 3 4
      (by simp [unvisitedCount, graphKeys, env8])
      (by simp [unvisitedCount, graphKeys, env8])

end Vitest
